import Mathlib

/-!
# form3-accountapi-client: the account client of `accountapi/client.go`

A shallow embedding of the Go package `accountapi`.

* Go `string` and `[]byte` values are byte sequences: `Bytes`, a list of
  naturals each standing for one byte.
* Go `int` is `Int`.
* A Go pointer that may be nil is an `Option`.
* A call that may panic returns `Outcome`, which has a `panic` alternative.
* The standard library functions the client calls are either written out
  (`fmt.Sprintf` with `%v`, the `encoding/json` scanner, string quoting and
  unquoting, struct decoding) or, where the client only passes their result
  through, taken from an environment `Env` (the HTTP round trip, the text of
  library errors, `time.Time` JSON methods, `%v` of a decoded JSON value).
-/

namespace accountapi

/-! ## Bytes, literals and `%v` formatting -/

/-- A Go `string` or `[]byte`: a sequence of bytes. -/
abbrev Bytes := List Nat

/-- The bytes of an ASCII string literal of the source. -/
def ascii (s : String) : Bytes := s.toList.map Char.toNat

/-- Decimal digits of `n`, most significant first (`fuel` bounds the number of digits). -/
def formatNatAux : Nat → Nat → Bytes → Bytes
  | 0, _, acc => acc
  | fuel + 1, n, acc =>
    if n < 10 then (48 + n) :: acc
    else formatNatAux fuel (n / 10) ((48 + n % 10) :: acc)

/-- The decimal text of a natural number, as `strconv.FormatInt(n, 10)`. -/
def formatNat (n : Nat) : Bytes := formatNatAux (n + 1) n []

/-- The text `%v` gives for a Go `int`: decimal, with a leading `-` when negative. -/
def formatInt : Int → Bytes
  | Int.ofNat n => formatNat n
  | Int.negSucc n => 45 :: formatNat (n + 1)

/-! ## Errors -/

/-- Model of `time.Time`: its three fields (wall clock word, extended
seconds or monotonic reading, location pointer; `none` is the nil pointer). -/
structure Time where
  wall : Nat
  ext : Int
  loc : Option Nat
  deriving DecidableEq, Repr

/-- The zero `time.Time`. -/
def Time.zero : Time := ⟨0, 0, none⟩

/-- Errors produced inside the standard library. -/
inductive LibError
  /-- `io.EOF` -/
  | eof
  /-- A `*json.SyntaxError` or `io.ErrUnexpectedEOF` for the given input. -/
  | syntaxErr (input : Bytes)
  /-- A `*json.InvalidUnmarshalError`: the target is nil or not a pointer. -/
  | invalidUnmarshal
  /-- A `*json.UnmarshalTypeError`: its `Value`, and the name of the Go type
  the JSON value does not fit. -/
  | unmarshalType (value goType : Bytes)
  /-- A `*json.MarshalerError`: `Time.MarshalJSON` failed for this value, or its output is not valid JSON. -/
  | marshaler (t : Time)
  /-- A failure of `Time.UnmarshalJSON` for the given text. -/
  | timeParse (text : Bytes)
  /-- A failure of `http.NewRequest` for the given method and URL. -/
  | newRequest (method url : Bytes)
  /-- A failure of `http.Client.Do`, identified by a code. -/
  | transport (code : Nat)
  deriving DecidableEq, Repr

/-- A non-nil Go `error` value. -/
inductive GoError
  /-- An error value returned by the standard library. -/
  | lib (e : LibError)
  /-- The result of `fmt.Errorf`, with its message. -/
  | errorf (msg : Bytes)
  deriving DecidableEq, Repr

/-! ## HTTP requests and responses -/

/-- What `http.NewRequest(method, url, body)` records. -/
structure Request where
  Method : Bytes
  URL : Bytes
  Body : Bytes
  deriving DecidableEq, Repr

/-- A response delivered by `http.Client.Do`: the status code and the bytes
its body yields before a clean end of stream. -/
structure Response where
  StatusCode : Int
  Body : Bytes
  deriving DecidableEq, Repr

/-! ## The generic JSON value the scanner recognises -/

/-- A JSON value as delimited by the `encoding/json` scanner. Strings and
object keys keep the raw bytes between their quotes, numbers keep their
literal text. -/
inductive JValue
  | null
  | bool (b : Bool)
  | number (lit : Bytes)
  | string (raw : Bytes)
  | array (elems : List JValue)
  | object (members : List (Bytes × JValue))
  deriving Repr

/-- The standard library behaviour the client only passes through. -/
structure Env where
  /-- The round trip `http.DefaultClient.Do(req)`. -/
  transport : Request → Except GoError Response
  /-- The checks of `url.Parse` after its control-byte check: `true` when the URL is accepted. -/
  urlAccepted : Bytes → Bool
  /-- The result of `Time.MarshalJSON`. -/
  timeMarshalJSON : Time → Except LibError Bytes
  /-- The result of `(*Time).UnmarshalJSON` on a value other than `null`. -/
  timeUnmarshalJSON : Bytes → Except LibError Time
  /-- Whether `strconv.ParseFloat(lit, 64)` reports an out-of-range number. -/
  floatOutOfRange : Bytes → Bool
  /-- The text `%v` gives for the Go value a JSON value decodes to in an `interface{}`. -/
  render : JValue → Bytes
  /-- The text of `Error()` for a library error. -/
  errText : LibError → Bytes

/-- The text of `err.Error()`, which `%v` prints for an error. -/
def GoError.Error (env : Env) : GoError → Bytes
  | GoError.lib e => env.errText e
  | GoError.errorf msg => msg

/-! ## UTF-8 (`unicode/utf8`) -/

/-- The rune `utf8.RuneError`, U+FFFD. -/
def RuneError : Nat := 0xFFFD

/-- Model of `utf8.DecodeRune`: the first rune of the bytes and its width. An
invalid or short encoding gives `(RuneError, 1)`, no bytes give `(RuneError, 0)`.
Masks and shifts are written with `%` and `*`. -/
def decodeRune : Bytes → Nat × Nat
  | [] => (RuneError, 0)
  | s0 :: t =>
    if s0 < 0x80 then (s0, 1)
    else if s0 < 0xC2 ∨ 0xF4 < s0 then (RuneError, 1)
    else
      let lo := if s0 = 0xE0 then 0xA0 else if s0 = 0xF0 then 0x90 else 0x80
      let hi := if s0 = 0xED then 0x9F else if s0 = 0xF4 then 0x8F else 0xBF
      match t with
      | [] => (RuneError, 1)
      | s1 :: t1 =>
        if s1 < lo ∨ hi < s1 then (RuneError, 1)
        else if s0 < 0xE0 then ((s0 % 32) * 64 + s1 % 64, 2)
        else
          match t1 with
          | [] => (RuneError, 1)
          | s2 :: t2 =>
            if s2 < 0x80 ∨ 0xBF < s2 then (RuneError, 1)
            else if s0 < 0xF0 then ((s0 % 16) * 4096 + (s1 % 64) * 64 + s2 % 64, 3)
            else
              match t2 with
              | [] => (RuneError, 1)
              | s3 :: _ =>
                if s3 < 0x80 ∨ 0xBF < s3 then (RuneError, 1)
                else ((s0 % 8) * 262144 + (s1 % 64) * 4096 + (s2 % 64) * 64 + s3 % 64, 4)

/-- Model of `utf8.EncodeRune`: surrogates and runes above U+10FFFF are
written as `RuneError`. -/
def encodeRune (r : Nat) : Bytes :=
  if r < 0x80 then [r]
  else if r < 0x800 then [0xC0 + r / 64, 0x80 + r % 64]
  else if 0x10FFFF < r ∨ (0xD800 ≤ r ∧ r ≤ 0xDFFF) then [0xEF, 0xBF, 0xBD]
  else if r < 0x10000 then [0xE0 + r / 4096, 0x80 + (r / 64) % 64, 0x80 + r % 64]
  else [0xF0 + r / 262144, 0x80 + (r / 4096) % 64, 0x80 + (r / 64) % 64, 0x80 + r % 64]

/-- A byte sequence that is well-formed UTF-8 (`utf8.Valid`). -/
def validUTF8 : Nat → Bytes → Bool
  | 0, s => s.isEmpty
  | _ + 1, [] => true
  | fuel + 1, b :: rest =>
    let d := decodeRune (b :: rest)
    if d.1 = RuneError ∧ d.2 = 1 then false
    else validUTF8 fuel ((b :: rest).drop d.2)

/-- Model of `utf8.ValidString`. -/
def ValidString (s : Bytes) : Bool := validUTF8 s.length s

/-! ## JSON string quoting (`encoding/json`, `encodeState.string`) -/

/-- The lower-case hexadecimal digit for a value below 16. -/
def hexDigit (d : Nat) : Nat := if d < 10 then 48 + d else 87 + d

/-- The bytes `encodeState.string` writes for one ASCII byte with HTML
escaping on: itself when it is in `htmlSafeSet`, otherwise an escape. -/
def escapeByte (b : Nat) : Bytes :=
  if b = 34 ∨ b = 92 then [92, b]
  else if b = 10 then [92, 110]
  else if b = 13 then [92, 114]
  else if b = 9 then [92, 116]
  else if b < 0x20 ∨ b = 60 ∨ b = 62 ∨ b = 38 then
    [92, 117, 48, 48, hexDigit (b / 16), hexDigit (b % 16)]
  else [b]

/-- The body of the loop of `encodeState.string`: the bytes written between the quotes. -/
def encodeStringAux : Nat → Bytes → Bytes
  | 0, _ => []
  | _ + 1, [] => []
  | fuel + 1, b :: rest =>
    if b < 0x80 then escapeByte b ++ encodeStringAux fuel rest
    else
      let d := decodeRune (b :: rest)
      if d.1 = RuneError ∧ d.2 = 1 then
        ascii "\\ufffd" ++ encodeStringAux fuel rest
      else if d.1 = 0x2028 ∨ d.1 = 0x2029 then
        ascii "\\u202" ++ [hexDigit (d.1 % 16)] ++ encodeStringAux fuel ((b :: rest).drop d.2)
      else (b :: rest).take d.2 ++ encodeStringAux fuel ((b :: rest).drop d.2)

/-- Model of `encodeState.string(s, true)`: the JSON string literal for a Go string. -/
def encodeString (s : Bytes) : Bytes := [34] ++ encodeStringAux s.length s ++ [34]

/-! ## JSON string unquoting (`encoding/json`, `unquoteBytes`) -/

/-- The value of a hexadecimal digit, if the byte is one. -/
def hexVal (c : Nat) : Option Nat :=
  if 48 ≤ c ∧ c ≤ 57 then some (c - 48)
  else if 97 ≤ c ∧ c ≤ 102 then some (c - 87)
  else if 65 ≤ c ∧ c ≤ 70 then some (c - 55)
  else none

/-- Model of `getu4`: the code unit of a leading `\uXXXX`, `none` for Go's `-1`. -/
def getu4 : Bytes → Option Nat
  | 92 :: 117 :: a :: b :: c :: d :: _ =>
    match hexVal a, hexVal b, hexVal c, hexVal d with
    | some x, some y, some z, some w => some (x * 4096 + y * 256 + z * 16 + w)
    | _, _, _, _ => none
  | _ => none

/-- Model of `utf16.DecodeRune` applied to a first unit and the result of a second `getu4`. -/
def utf16DecodeRune (r1 : Nat) (r2 : Option Nat) : Nat :=
  match r2 with
  | some r2 =>
    if 0xD800 ≤ r1 ∧ r1 < 0xDC00 ∧ 0xDC00 ≤ r2 ∧ r2 < 0xE000 then
      (r1 - 0xD800) * 1024 + (r2 - 0xDC00) + 0x10000
    else RuneError
  | none => RuneError

/-- The loop of `unquoteBytes` over the bytes between the quotes. Runs of
well-formed bytes that Go copies unchanged are decoded and written again
rune by rune, which gives the same bytes. -/
def unquoteAux : Nat → Bytes → Option Bytes
  | 0, s => if s.isEmpty then some [] else none
  | _ + 1, [] => some []
  | fuel + 1, c :: rest =>
    if c = 92 then
      match rest with
      | [] => none
      | e :: rest2 =>
        if e = 34 ∨ e = 92 ∨ e = 47 ∨ e = 39 then (unquoteAux fuel rest2).map (fun t => e :: t)
        else if e = 98 then (unquoteAux fuel rest2).map (fun t => 8 :: t)
        else if e = 102 then (unquoteAux fuel rest2).map (fun t => 12 :: t)
        else if e = 110 then (unquoteAux fuel rest2).map (fun t => 10 :: t)
        else if e = 114 then (unquoteAux fuel rest2).map (fun t => 13 :: t)
        else if e = 116 then (unquoteAux fuel rest2).map (fun t => 9 :: t)
        else if e = 117 then
          match getu4 (c :: rest) with
          | none => none
          | some rr =>
            let rest3 := rest2.drop 4
            if 0xD800 ≤ rr ∧ rr < 0xE000 then
              let dec := utf16DecodeRune rr (getu4 rest3)
              if dec ≠ RuneError then
                (unquoteAux fuel (rest3.drop 6)).map (fun t => encodeRune dec ++ t)
              else (unquoteAux fuel rest3).map (fun t => encodeRune RuneError ++ t)
            else (unquoteAux fuel rest3).map (fun t => encodeRune rr ++ t)
        else none
    else if c = 34 ∨ c < 0x20 then none
    else if c < 0x80 then (unquoteAux fuel rest).map (fun t => c :: t)
    else
      let d := decodeRune (c :: rest)
      (unquoteAux fuel ((c :: rest).drop d.2)).map (fun t => encodeRune d.1 ++ t)

/-- Model of `unquoteBytes` on the bytes between the quotes of a literal. -/
def unquote (raw : Bytes) : Option Bytes := unquoteAux raw.length raw

/-! ## The JSON scanner (`encoding/json`, `scanner.go`) -/

/-- Model of `isSpace`: the four JSON whitespace bytes. -/
def isSpace (c : Nat) : Bool := c = 32 ∨ c = 9 ∨ c = 13 ∨ c = 10

/-- Drop leading JSON whitespace. -/
def skipSpace : Bytes → Bytes
  | [] => []
  | c :: rest => if isSpace c then skipSpace rest else c :: rest

/-- Whether a byte is a decimal digit. -/
def isDigit (c : Nat) : Bool := 48 ≤ c ∧ c ≤ 57

/-- Scan a string literal after its opening quote (`stateInString` and the
escape states): the raw bytes up to the closing quote, and what follows it. -/
def scanString : Bytes → Option (Bytes × Bytes)
  | [] => none
  | c :: rest =>
    if c = 34 then some ([], rest)
    else if c = 92 then
      match rest with
      | [] => none
      | e :: rest2 =>
        if e = 117 then
          match rest2 with
          | h1 :: h2 :: h3 :: h4 :: rest3 =>
            if (hexVal h1).isSome ∧ (hexVal h2).isSome ∧ (hexVal h3).isSome ∧ (hexVal h4).isSome then
              (scanString rest3).map (fun p => (c :: e :: h1 :: h2 :: h3 :: h4 :: p.1, p.2))
            else none
          | _ => none
        else if e = 98 ∨ e = 102 ∨ e = 110 ∨ e = 114 ∨ e = 116 ∨ e = 92 ∨ e = 47 ∨ e = 34 then
          (scanString rest2).map (fun p => (c :: e :: p.1, p.2))
        else none
    else if c < 0x20 then none
    else (scanString rest).map (fun p => (c :: p.1, p.2))

/-- The longest run of leading digits, and the rest. -/
def takeDigits : Bytes → Bytes × Bytes
  | [] => ([], [])
  | c :: rest =>
    if isDigit c then ((c :: (takeDigits rest).1), (takeDigits rest).2)
    else ([], c :: rest)

/-- Scan the exponent part of a number, if one starts here (`stateE`, `stateESign`, `stateE0`). -/
def scanExponent (s : Bytes) : Option (Bytes × Bytes) :=
  match s with
  | c :: rest =>
    if c = 101 ∨ c = 69 then
      match rest with
      | d :: rest2 =>
        if d = 43 ∨ d = 45 then
          match takeDigits rest2 with
          | ([], _) => none
          | (ds, r) => some (c :: d :: ds, r)
        else
          match takeDigits rest with
          | ([], _) => none
          | (ds, r) => some (c :: ds, r)
      | [] => none
    else some ([], s)
  | [] => some ([], [])

/-- Scan the fraction part of a number, if one starts here (`stateDot`, `stateDot0`). -/
def scanFraction (s : Bytes) : Option (Bytes × Bytes) :=
  match s with
  | c :: rest =>
    if c = 46 then
      match takeDigits rest with
      | ([], _) => none
      | (ds, r) => some (c :: ds, r)
    else some ([], s)
  | [] => some ([], [])

/-- Scan the integer part of a number without its sign (`state0`, `state1`). -/
def scanIntPart (s : Bytes) : Option (Bytes × Bytes) :=
  match s with
  | c :: rest =>
    if c = 48 then some ([48], rest)
    else if 49 ≤ c ∧ c ≤ 57 then some (c :: (takeDigits rest).1, (takeDigits rest).2)
    else none
  | [] => none

/-- Scan the integer, fraction and exponent parts of a number. -/
def scanUnsigned (s : Bytes) : Option (Bytes × Bytes) :=
  match scanIntPart s with
  | none => none
  | some (i, r1) =>
    match scanFraction r1 with
    | none => none
    | some (f, r2) =>
      match scanExponent r2 with
      | none => none
      | some (e, r3) => some (i ++ f ++ e, r3)

/-- Scan a number literal: its text and what follows it. -/
def scanNumber (s : Bytes) : Option (Bytes × Bytes) :=
  match s with
  | c :: rest =>
    if c = 45 then (scanUnsigned rest).map (fun p => (45 :: p.1, p.2))
    else scanUnsigned s
  | [] => none

/-- Remove the given literal from the front of the input, if it is there. -/
def stripLit : Bytes → Bytes → Option Bytes
  | [], s => some s
  | _ :: _, [] => none
  | l :: ls, c :: rest => if l = c then stripLit ls rest else none

mutual
/-- Scan one JSON value, after optional whitespace: the value and what follows it. -/
def parseValue : Nat → Bytes → Option (JValue × Bytes)
  | 0, _ => none
  | fuel + 1, s =>
    match skipSpace s with
    | [] => none
    | c :: rest =>
      if c = 123 then
        match skipSpace rest with
        | [] => none
        | d :: rest2 =>
          if d = 125 then some (JValue.object [], rest2)
          else (parseMembers fuel (d :: rest2)).map (fun p => (JValue.object p.1, p.2))
      else if c = 91 then
        match skipSpace rest with
        | [] => none
        | d :: rest2 =>
          if d = 93 then some (JValue.array [], rest2)
          else (parseElems fuel (d :: rest2)).map (fun p => (JValue.array p.1, p.2))
      else if c = 34 then (scanString rest).map (fun p => (JValue.string p.1, p.2))
      else if c = 45 ∨ isDigit c then (scanNumber (c :: rest)).map (fun p => (JValue.number p.1, p.2))
      else if c = 116 then (stripLit (ascii "rue") rest).map (fun r => (JValue.bool true, r))
      else if c = 102 then (stripLit (ascii "alse") rest).map (fun r => (JValue.bool false, r))
      else if c = 110 then (stripLit (ascii "ull") rest).map (fun r => (JValue.null, r))
      else none
/-- Scan the elements of a non-empty array up to and including its `]`. -/
def parseElems : Nat → Bytes → Option (List JValue × Bytes)
  | 0, _ => none
  | fuel + 1, s =>
    match parseValue fuel s with
    | none => none
    | some (v, r) =>
      match skipSpace r with
      | [] => none
      | c :: r2 =>
        if c = 44 then (parseElems fuel r2).map (fun p => (v :: p.1, p.2))
        else if c = 93 then some ([v], r2)
        else none
/-- Scan the members of a non-empty object up to and including its `}`. -/
def parseMembers : Nat → Bytes → Option (List (Bytes × JValue) × Bytes)
  | 0, _ => none
  | fuel + 1, s =>
    match skipSpace s with
    | [] => none
    | q :: r0 =>
      if q = 34 then
        match scanString r0 with
        | none => none
        | some (key, r1) =>
          match skipSpace r1 with
          | [] => none
          | c :: r2 =>
            if c = 58 then
              match parseValue fuel r2 with
              | none => none
              | some (v, r3) =>
                match skipSpace r3 with
                | [] => none
                | d :: r4 =>
                  if d = 44 then (parseMembers fuel r4).map (fun p => ((key, v) :: p.1, p.2))
                  else if d = 125 then some ([(key, v)], r4)
                  else none
            else none
      else none
end

/-- The first JSON value of an input, scanned with enough fuel for any input of that length. -/
def scanValue (s : Bytes) : Option (JValue × Bytes) := parseValue (2 * s.length + 2) s

/-- Model of `checkValid` followed by the scan: the input is exactly one JSON
value, with optional whitespace around it. -/
def parseDocument (s : Bytes) : Option JValue :=
  match scanValue s with
  | some (v, rest) => if (skipSpace rest).isEmpty then some v else none
  | none => none

/-! ## The data model of `client.go` -/

/-- Attributes - account attributes sub resource. A `[]string` is `none` when nil. -/
structure Attributes where
  AccountClassification : Bytes
  AccountMatchingOptOut : Bool
  AccountNumber : Bytes
  AlternativeBankAccountNames : Option (List Bytes)
  BankAccountName : Bytes
  BankID : Bytes
  BankIDCode : Bytes
  BaseCurrency : Bytes
  Bic : Bytes
  Country : Bytes
  FirstName : Bytes
  Iban : Bytes
  JointAccount : Bool
  SecondaryIdentification : Bytes
  Title : Bytes
  deriving DecidableEq, Repr

/-- Account resource defining account attributes and metadata (field `Type` is `Type_`). -/
structure Account where
  Attributes : Attributes
  CreatedOn : Time
  ID : Bytes
  ModifiedOn : Time
  OrganisationID : Bytes
  Type_ : Bytes
  Version : Int
  deriving DecidableEq, Repr

/-- The struct `accountBody`: field `Account2` is a `*Account`. -/
structure accountBody where
  Account2 : Option Account
  deriving DecidableEq, Repr

/-- The struct `accountListBody`: field `Accounts` is a `[]*Account`, `none` when nil. -/
structure accountListBody where
  Accounts : Option (List (Option Account))
  deriving DecidableEq, Repr

/-- The struct `Client`. -/
structure Client where
  baseURL : Bytes
  deriving DecidableEq, Repr

/-- NewClient - create a new client with specified config. -/
def NewClient (baseURL : Bytes) : Client := ⟨baseURL⟩

/-- The zero value of `Attributes`. -/
def Attributes.zero : Attributes :=
  ⟨[], false, [], none, [], [], [], [], [], [], [], [], false, [], []⟩

/-- The zero value of `Account`. -/
def Account.zero : Account := ⟨Attributes.zero, Time.zero, [], Time.zero, [], [], 0⟩

/-! ## `json.Marshal` of the request body -/

/-- The escapes `compact` applies with HTML escaping on: `<`, `>`, `&` and
the encodings of U+2028 and U+2029 (`fuel` bounds the number of bytes). -/
def escapeHTMLAux : Nat → Bytes → Bytes
  | 0, _ => []
  | _ + 1, [] => []
  | fuel + 1, c :: rest =>
    if c = 60 ∨ c = 62 ∨ c = 38 then
      [92, 117, 48, 48, hexDigit (c / 16), hexDigit (c % 16)] ++ escapeHTMLAux fuel rest
    else if c = 0xE2 ∧ rest.take 2 = [0x80, 0xA8] then
      ascii "\\u2028" ++ escapeHTMLAux fuel (rest.drop 2)
    else if c = 0xE2 ∧ rest.take 2 = [0x80, 0xA9] then
      ascii "\\u2029" ++ escapeHTMLAux fuel (rest.drop 2)
    else c :: escapeHTMLAux fuel rest

/-- The escapes of `compact` over a whole byte sequence. -/
def escapeHTMLBytes (s : Bytes) : Bytes := escapeHTMLAux s.length s

mutual
/-- The output of `compact` for a valid value: no insignificant whitespace, HTML escapes applied. -/
def compactJ : JValue → Bytes
  | JValue.null => ascii "null"
  | JValue.bool true => ascii "true"
  | JValue.bool false => ascii "false"
  | JValue.number lit => lit
  | JValue.string raw => [34] ++ escapeHTMLBytes raw ++ [34]
  | JValue.array elems => [91] ++ compactElems elems ++ [93]
  | JValue.object members => [123] ++ compactMembers members ++ [125]
/-- The elements of an array, separated by commas. -/
def compactElems : List JValue → Bytes
  | [] => []
  | [v] => compactJ v
  | v :: w :: rest => compactJ v ++ [44] ++ compactElems (w :: rest)
/-- The members of an object, separated by commas. -/
def compactMembers : List (Bytes × JValue) → Bytes
  | [] => []
  | [(k, v)] => [34] ++ escapeHTMLBytes k ++ [34, 58] ++ compactJ v
  | (k, v) :: m :: rest =>
    [34] ++ escapeHTMLBytes k ++ [34, 58] ++ compactJ v ++ [44] ++ compactMembers (m :: rest)
end

/-- What `json.Marshal` writes for a `time.Time`: the output of its
`MarshalJSON`, checked to be valid JSON and compacted. -/
def marshalTime (env : Env) (t : Time) : Except LibError Bytes :=
  match env.timeMarshalJSON t with
  | Except.error _ => Except.error (LibError.marshaler t)
  | Except.ok b =>
    match parseDocument b with
    | none => Except.error (LibError.marshaler t)
    | some v => Except.ok (compactJ v)

/-- The elements of a `[]string`, separated by commas. -/
def marshalStrings : List Bytes → Bytes
  | [] => []
  | [x] => encodeString x
  | x :: y :: rest => encodeString x ++ [44] ++ marshalStrings (y :: rest)

/-- What `json.Marshal` writes for a `[]string`: `null` for a nil slice. -/
def marshalStringSlice : Option (List Bytes) → Bytes
  | none => ascii "null"
  | some l => [91] ++ marshalStrings l ++ [93]

/-- What `json.Marshal` writes for a `bool`. -/
def marshalBool (b : Bool) : Bytes := if b then ascii "true" else ascii "false"

/-- The members of an object as `json.Marshal` writes a struct: each field name
quoted (the names of this package need no escape), a colon, the field's
value, with commas in between. -/
def writeFields : List (Bytes × Bytes) → Bytes
  | [] => []
  | [(k, v)] => [34] ++ k ++ [34, 58] ++ v
  | (k, v) :: m :: rest => [34] ++ k ++ [34, 58] ++ v ++ [44] ++ writeFields (m :: rest)

/-- A struct as `json.Marshal` writes it: its fields between braces. -/
def writeObject (fields : List (Bytes × Bytes)) : Bytes := [123] ++ writeFields fields ++ [125]

/-- The fields of an `Attributes` in declaration order, each with its JSON
name and the text `json.Marshal` writes for its value. -/
def attributeFields (a : Attributes) : List (Bytes × Bytes) :=
  [(ascii "account_classification", encodeString a.AccountClassification),
   (ascii "account_matching_opt_out", marshalBool a.AccountMatchingOptOut),
   (ascii "account_number", encodeString a.AccountNumber),
   (ascii "alternative_bank_account_names", marshalStringSlice a.AlternativeBankAccountNames),
   (ascii "bank_account_name", encodeString a.BankAccountName),
   (ascii "bank_id", encodeString a.BankID),
   (ascii "bank_id_code", encodeString a.BankIDCode),
   (ascii "base_currency", encodeString a.BaseCurrency),
   (ascii "bic", encodeString a.Bic),
   (ascii "country", encodeString a.Country),
   (ascii "first_name", encodeString a.FirstName),
   (ascii "iban", encodeString a.Iban),
   (ascii "joint_account", marshalBool a.JointAccount),
   (ascii "secondary_identification", encodeString a.SecondaryIdentification),
   (ascii "title", encodeString a.Title)]

/-- What `json.Marshal` writes for an `Attributes`. -/
def marshalAttributes (a : Attributes) : Bytes := writeObject (attributeFields a)

/-- The fields of an `Account` in declaration order, each with its JSON name
and the text `json.Marshal` writes for its value; the texts of the two times
are given. -/
def accountFields (a : Account) (created modified : Bytes) : List (Bytes × Bytes) :=
  [(ascii "attributes", marshalAttributes a.Attributes),
   (ascii "created_on", created),
   (ascii "id", encodeString a.ID),
   (ascii "modified_on", modified),
   (ascii "organisation_id", encodeString a.OrganisationID),
   (ascii "type", encodeString a.Type_),
   (ascii "version", formatInt a.Version)]

/-- What `json.Marshal` writes for an `Account`. -/
def marshalAccount (env : Env) (a : Account) : Except LibError Bytes :=
  match marshalTime env a.CreatedOn with
  | Except.error e => Except.error e
  | Except.ok created =>
    match marshalTime env a.ModifiedOn with
    | Except.error e => Except.error e
    | Except.ok modified => Except.ok (writeObject (accountFields a created modified))

/-- What `json.Marshal` writes for a `*accountBody`: the envelope with the key `data`. -/
def marshalAccountBody (env : Env) (b : accountBody) : Except LibError Bytes :=
  match b.Account2 with
  | none => Except.ok (writeObject [(ascii "data", ascii "null")])
  | some a =>
    match marshalAccount env a with
    | Except.error e => Except.error e
    | Except.ok j => Except.ok (writeObject [(ascii "data", j)])

/-! ## Decoding into the client's types (`encoding/json`, `decode.go`) -/

/-- The first error `decodeState.saveError` recorded, if any. -/
abbrev Saved := Option LibError

/-- Model of `decodeState.saveError`: only the first error is kept. -/
def saveError (sv : Saved) (e : LibError) : Saved :=
  match sv with
  | none => some e
  | some x => some x

/-- The name `UnmarshalTypeError.Value` gives the kind of a JSON value. -/
def kindName : JValue → Bytes
  | JValue.null => ascii "null"
  | JValue.bool _ => ascii "bool"
  | JValue.number _ => ascii "number"
  | JValue.string _ => ascii "string"
  | JValue.array _ => ascii "array"
  | JValue.object _ => ascii "object"

/-- Fold a name as field matching does: ASCII letters to upper case, and the
two non-ASCII letters that fold to ASCII, U+017F to `S` and U+212A to `K`. -/
def foldName : Nat → Bytes → Bytes
  | 0, _ => []
  | _ + 1, [] => []
  | fuel + 1, c :: rest =>
    if 97 ≤ c ∧ c ≤ 122 then (c - 32) :: foldName fuel rest
    else if c = 0xC5 ∧ rest.take 1 = [0xBF] then 83 :: foldName fuel (rest.drop 1)
    else if c = 0xE2 ∧ rest.take 2 = [0x84, 0xAA] then 75 :: foldName fuel (rest.drop 2)
    else c :: foldName fuel rest

/-- Whether an unquoted object key selects the field with the given JSON
name: an exact match, or a match after folding. -/
def matchField (name key : Bytes) : Bool :=
  key = name ∨ foldName key.length key = foldName name.length name

/-- The value of a run of decimal digits. -/
def digitsValue : Bytes → Nat → Option Nat
  | [], acc => some acc
  | c :: rest, acc => if isDigit c then digitsValue rest (acc * 10 + (c - 48)) else none

/-- Model of `strconv.ParseInt(lit, 10, 64)` on a JSON number literal: `none` when
the literal is not an integer or does not fit 64 bits. -/
def parseInt64 (lit : Bytes) : Option Int :=
  match lit with
  | [] => none
  | c :: rest =>
    if c = 45 then
      match rest with
      | [] => none
      | _ :: _ =>
        match digitsValue rest 0 with
        | some n => if n ≤ 2 ^ 63 then some (-(n : Int)) else none
        | none => none
    else
      match digitsValue (c :: rest) 0 with
      | some n => if n < 2 ^ 63 then some (n : Int) else none
      | none => none

/-- Decode a JSON value into a Go `string`. -/
def decodeString (v : JValue) (old : Bytes) (sv : Saved) : Bytes × Saved :=
  match v with
  | JValue.null => (old, sv)
  | JValue.string raw =>
    match unquote raw with
    | some t => (t, sv)
    | none => (old, saveError sv (LibError.unmarshalType (kindName v) (ascii "string")))
  | _ => (old, saveError sv (LibError.unmarshalType (kindName v) (ascii "string")))

/-- Decode a JSON value into a Go `bool`. -/
def decodeBool (v : JValue) (old : Bool) (sv : Saved) : Bool × Saved :=
  match v with
  | JValue.null => (old, sv)
  | JValue.bool b => (b, sv)
  | _ => (old, saveError sv (LibError.unmarshalType (kindName v) (ascii "bool")))

/-- Decode a JSON value into a Go `int`. -/
def decodeInt (v : JValue) (old : Int) (sv : Saved) : Int × Saved :=
  match v with
  | JValue.null => (old, sv)
  | JValue.number lit =>
    match parseInt64 lit with
    | some n => (n, sv)
    | none => (old, saveError sv (LibError.unmarshalType (ascii "number " ++ lit) (ascii "int")))
  | _ => (old, saveError sv (LibError.unmarshalType (kindName v) (ascii "int")))

/-- Decode the elements of a JSON array into the elements of a `[]string`:
element `i` starts from the old element `i`, or from the empty string. -/
def decodeStringElems : List JValue → List Bytes → Saved → List Bytes × Saved
  | [], _, sv => ([], sv)
  | v :: vs, old, sv =>
    let r := decodeString v (old.headD []) sv
    let rs := decodeStringElems vs old.tail r.2
    (r.1 :: rs.1, rs.2)

/-- Decode a JSON value into a Go `[]string`: `null` gives the nil slice. -/
def decodeStringSlice (v : JValue) (old : Option (List Bytes)) (sv : Saved) :
    Option (List Bytes) × Saved :=
  match v with
  | JValue.null => (none, sv)
  | JValue.array elems =>
    let r := decodeStringElems elems (old.getD []) sv
    (some r.1, r.2)
  | _ => (old, saveError sv (LibError.unmarshalType (kindName v) (ascii "[]string")))

/-- Decode a JSON value into a `time.Time` through its `UnmarshalJSON`: `null`
changes nothing, a string literal is handed over with its quotes, any other
value is rejected. A failure stops the decoding. -/
def decodeTime (env : Env) (v : JValue) (old : Time) : Except LibError Time :=
  match v with
  | JValue.null => Except.ok old
  | JValue.string raw => env.timeUnmarshalJSON ([34] ++ raw ++ [34])
  | _ => Except.error (LibError.timeParse (compactJ v))

/-- Store one object member into the `Attributes` field its key selects. -/
def setAttribute (key : Bytes) (v : JValue) (a : Attributes) (sv : Saved) : Attributes × Saved :=
  if matchField (ascii "account_classification") key then
    let r := decodeString v a.AccountClassification sv
    ({ a with AccountClassification := r.1 }, r.2)
  else if matchField (ascii "account_matching_opt_out") key then
    let r := decodeBool v a.AccountMatchingOptOut sv
    ({ a with AccountMatchingOptOut := r.1 }, r.2)
  else if matchField (ascii "account_number") key then
    let r := decodeString v a.AccountNumber sv
    ({ a with AccountNumber := r.1 }, r.2)
  else if matchField (ascii "alternative_bank_account_names") key then
    let r := decodeStringSlice v a.AlternativeBankAccountNames sv
    ({ a with AlternativeBankAccountNames := r.1 }, r.2)
  else if matchField (ascii "bank_account_name") key then
    let r := decodeString v a.BankAccountName sv
    ({ a with BankAccountName := r.1 }, r.2)
  else if matchField (ascii "bank_id") key then
    let r := decodeString v a.BankID sv
    ({ a with BankID := r.1 }, r.2)
  else if matchField (ascii "bank_id_code") key then
    let r := decodeString v a.BankIDCode sv
    ({ a with BankIDCode := r.1 }, r.2)
  else if matchField (ascii "base_currency") key then
    let r := decodeString v a.BaseCurrency sv
    ({ a with BaseCurrency := r.1 }, r.2)
  else if matchField (ascii "bic") key then
    let r := decodeString v a.Bic sv
    ({ a with Bic := r.1 }, r.2)
  else if matchField (ascii "country") key then
    let r := decodeString v a.Country sv
    ({ a with Country := r.1 }, r.2)
  else if matchField (ascii "first_name") key then
    let r := decodeString v a.FirstName sv
    ({ a with FirstName := r.1 }, r.2)
  else if matchField (ascii "iban") key then
    let r := decodeString v a.Iban sv
    ({ a with Iban := r.1 }, r.2)
  else if matchField (ascii "joint_account") key then
    let r := decodeBool v a.JointAccount sv
    ({ a with JointAccount := r.1 }, r.2)
  else if matchField (ascii "secondary_identification") key then
    let r := decodeString v a.SecondaryIdentification sv
    ({ a with SecondaryIdentification := r.1 }, r.2)
  else if matchField (ascii "title") key then
    let r := decodeString v a.Title sv
    ({ a with Title := r.1 }, r.2)
  else (a, sv)

/-- The unquoted form of an object key; a key the scanner accepted always has one. -/
def keyOf (raw : Bytes) : Bytes := (unquote raw).getD []

/-- Store the members of a JSON object into an `Attributes`, in order. -/
def decodeAttributesMembers : List (Bytes × JValue) → Attributes → Saved → Attributes × Saved
  | [], a, sv => (a, sv)
  | (k, v) :: rest, a, sv =>
    let r := setAttribute (keyOf k) v a sv
    decodeAttributesMembers rest r.1 r.2

/-- Decode a JSON value into an `Attributes`. -/
def decodeAttributes (v : JValue) (old : Attributes) (sv : Saved) : Attributes × Saved :=
  match v with
  | JValue.null => (old, sv)
  | JValue.object members => decodeAttributesMembers members old sv
  | _ => (old, saveError sv (LibError.unmarshalType (kindName v) (ascii "accountapi.Attributes")))

/-- Store one object member into the `Account` field its key selects. -/
def setAccountField (env : Env) (key : Bytes) (v : JValue) (a : Account) (sv : Saved) :
    Except LibError (Account × Saved) :=
  if matchField (ascii "attributes") key then
    let r := decodeAttributes v a.Attributes sv
    Except.ok ({ a with Attributes := r.1 }, r.2)
  else if matchField (ascii "created_on") key then
    match decodeTime env v a.CreatedOn with
    | Except.error e => Except.error e
    | Except.ok t => Except.ok ({ a with CreatedOn := t }, sv)
  else if matchField (ascii "id") key then
    let r := decodeString v a.ID sv
    Except.ok ({ a with ID := r.1 }, r.2)
  else if matchField (ascii "modified_on") key then
    match decodeTime env v a.ModifiedOn with
    | Except.error e => Except.error e
    | Except.ok t => Except.ok ({ a with ModifiedOn := t }, sv)
  else if matchField (ascii "organisation_id") key then
    let r := decodeString v a.OrganisationID sv
    Except.ok ({ a with OrganisationID := r.1 }, r.2)
  else if matchField (ascii "type") key then
    let r := decodeString v a.Type_ sv
    Except.ok ({ a with Type_ := r.1 }, r.2)
  else if matchField (ascii "version") key then
    let r := decodeInt v a.Version sv
    Except.ok ({ a with Version := r.1 }, r.2)
  else Except.ok (a, sv)

/-- Store the members of a JSON object into an `Account`, in order. -/
def decodeAccountMembers (env : Env) :
    List (Bytes × JValue) → Account → Saved → Except LibError (Account × Saved)
  | [], a, sv => Except.ok (a, sv)
  | (k, v) :: rest, a, sv =>
    match setAccountField env (keyOf k) v a sv with
    | Except.error e => Except.error e
    | Except.ok r => decodeAccountMembers env rest r.1 r.2

/-- Decode a JSON value other than `null` into an `Account`. -/
def decodeAccount (env : Env) (v : JValue) (old : Account) (sv : Saved) :
    Except LibError (Account × Saved) :=
  match v with
  | JValue.null => Except.ok (old, sv)
  | JValue.object members => decodeAccountMembers env members old sv
  | _ => Except.ok (old, saveError sv (LibError.unmarshalType (kindName v) (ascii "accountapi.Account")))

/-- Decode a JSON value into a `*Account`: `null` sets the pointer to nil, any
other value is decoded into the Account pointed to, allocated when the pointer is nil. -/
def decodeAccountPtr (env : Env) (v : JValue) (old : Option Account) (sv : Saved) :
    Except LibError (Option Account × Saved) :=
  match v with
  | JValue.null => Except.ok (none, sv)
  | _ =>
    match decodeAccount env v (old.getD Account.zero) sv with
    | Except.error e => Except.error e
    | Except.ok r => Except.ok (some r.1, r.2)

/-- The variable `b` of `Create` together with the variable `account` that
its field pointed to at the start: `linked` says the pointer still refers to
`account`, whose value is then the one the pointer shows. -/
structure BodyCell where
  body : accountBody
  account : Account
  linked : Bool
  deriving DecidableEq, Repr

/-- Store one object member into the `accountBody` field its key selects. -/
def setBodyField (env : Env) (key : Bytes) (v : JValue) (c : BodyCell) (sv : Saved) :
    Except LibError (BodyCell × Saved) :=
  if matchField (ascii "data") key then
    match decodeAccountPtr env v c.body.Account2 sv with
    | Except.error e => Except.error e
    | Except.ok (none, sv1) => Except.ok (⟨⟨none⟩, c.account, false⟩, sv1)
    | Except.ok (some a, sv1) =>
      Except.ok (⟨⟨some a⟩, if c.linked then a else c.account, c.linked⟩, sv1)
  else Except.ok (c, sv)

/-- Store the members of a JSON object into an `accountBody`, in order. -/
def decodeBodyMembers (env : Env) :
    List (Bytes × JValue) → BodyCell → Saved → Except LibError (BodyCell × Saved)
  | [], c, sv => Except.ok (c, sv)
  | (k, v) :: rest, c, sv =>
    match setBodyField env (keyOf k) v c sv with
    | Except.error e => Except.error e
    | Except.ok r => decodeBodyMembers env rest r.1 r.2

/-- Decode a JSON value into an `accountBody` struct. -/
def decodeAccountBody (env : Env) (v : JValue) (c : BodyCell) (sv : Saved) :
    Except LibError (BodyCell × Saved) :=
  match v with
  | JValue.null => Except.ok (c, sv)
  | JValue.object members => decodeBodyMembers env members c sv
  | _ => Except.ok (c, saveError sv (LibError.unmarshalType (kindName v) (ascii "accountapi.accountBody")))

/-- Decode the elements of a JSON array into the elements of a `[]*Account`:
element `i` starts from the old element `i`, or from nil. -/
def decodeAccountElems (env : Env) :
    List JValue → List (Option Account) → Saved → Except LibError (List (Option Account) × Saved)
  | [], _, sv => Except.ok ([], sv)
  | v :: vs, old, sv =>
    match decodeAccountPtr env v (old.headD none) sv with
    | Except.error e => Except.error e
    | Except.ok r =>
      match decodeAccountElems env vs old.tail r.2 with
      | Except.error e => Except.error e
      | Except.ok rs => Except.ok (r.1 :: rs.1, rs.2)

/-- Decode a JSON value into a `[]*Account`: `null` gives the nil slice. -/
def decodeAccountSlice (env : Env) (v : JValue) (old : Option (List (Option Account)))
    (sv : Saved) : Except LibError (Option (List (Option Account)) × Saved) :=
  match v with
  | JValue.null => Except.ok (none, sv)
  | JValue.array elems =>
    match decodeAccountElems env elems (old.getD []) sv with
    | Except.error e => Except.error e
    | Except.ok r => Except.ok (some r.1, r.2)
  | _ => Except.ok (old, saveError sv (LibError.unmarshalType (kindName v) (ascii "[]*accountapi.Account")))

/-- Store the members of a JSON object into an `accountListBody`, in order. -/
def decodeListMembers (env : Env) :
    List (Bytes × JValue) → accountListBody → Saved → Except LibError (accountListBody × Saved)
  | [], b, sv => Except.ok (b, sv)
  | (k, v) :: rest, b, sv =>
    if matchField (ascii "data") (keyOf k) then
      match decodeAccountSlice env v b.Accounts sv with
      | Except.error e => Except.error e
      | Except.ok r => decodeListMembers env rest ⟨r.1⟩ r.2
    else decodeListMembers env rest b sv

/-- Decode a JSON value into an `accountListBody` struct. -/
def decodeAccountListBody (env : Env) (v : JValue) (b : accountListBody) (sv : Saved) :
    Except LibError (accountListBody × Saved) :=
  match v with
  | JValue.null => Except.ok (b, sv)
  | JValue.object members => decodeListMembers env members b sv
  | _ => Except.ok (b, saveError sv (LibError.unmarshalType (kindName v) (ascii "accountapi.accountListBody")))

/-! ### `decodeState.unmarshal` for each target the client passes

Each gives the target after decoding and the error returned. When the
decoding stops on a failure the target is reported as it was; every caller
discards it in that case. -/

/-- The target `nil` that `Delete` passes: `json: Unmarshal(nil)`. -/
def unmarshalNil (_ : Env) (_ : JValue) (v : Unit) : Unit × Option LibError :=
  (v, some LibError.invalidUnmarshal)

/-- The target `&b` of `Create`, a `*accountBody`. -/
def unmarshalBody (env : Env) (j : JValue) (c : BodyCell) : BodyCell × Option LibError :=
  match decodeAccountBody env j c none with
  | Except.error e => (c, some e)
  | Except.ok r => r

/-- The target `&b` of `Fetch`, a `**accountBody`: `null` sets `b` to nil, any other
value is decoded into the struct `b` points to, allocated when `b` is nil. -/
def unmarshalBodyPtr (env : Env) (j : JValue) (b : Option accountBody) :
    Option accountBody × Option LibError :=
  match j with
  | JValue.null => (none, none)
  | _ =>
    match decodeAccountBody env j ⟨b.getD ⟨none⟩, Account.zero, false⟩ none with
    | Except.error e => (b, some e)
    | Except.ok r => (some r.1.body, r.2)

/-- The target `&b` of `List`, a `**accountListBody`. -/
def unmarshalListBodyPtr (env : Env) (j : JValue) (b : Option accountListBody) :
    Option accountListBody × Option LibError :=
  match j with
  | JValue.null => (none, none)
  | _ =>
    match decodeAccountListBody env j (b.getD ⟨none⟩) none with
    | Except.error e => (b, some e)
    | Except.ok r => (some r.1, r.2)

/-- Model of `json.NewDecoder(body).Decode(v)` on a fresh decoder: `io.EOF` when
the stream holds no value (only whitespace), a syntax error when it does not
start with a complete value, otherwise the value is stored into the target.
What follows the first value is not looked at. -/
def Decode {τ : Type} (env : Env) (um : Env → JValue → τ → τ × Option LibError)
    (body : Bytes) (v : τ) : τ × Option LibError :=
  if (skipSpace body).isEmpty then (v, some LibError.eof)
  else
    match scanValue body with
    | none => (v, some (LibError.syntaxErr body))
    | some (j, _) => um env j v

mutual
/-- The first number literal of a value, in document order, that `float64` cannot hold. -/
def firstBadNumber (env : Env) : JValue → Option Bytes
  | JValue.number lit => if env.floatOutOfRange lit then some lit else none
  | JValue.array elems => firstBadInElems env elems
  | JValue.object members => firstBadInMembers env members
  | _ => none
/-- The first such literal among the elements of an array. -/
def firstBadInElems (env : Env) : List JValue → Option Bytes
  | [] => none
  | v :: rest =>
    match firstBadNumber env v with
    | some lit => some lit
    | none => firstBadInElems env rest
/-- The first such literal among the members of an object. -/
def firstBadInMembers (env : Env) : List (Bytes × JValue) → Option Bytes
  | [] => none
  | (_, v) :: rest =>
    match firstBadNumber env v with
    | some lit => some lit
    | none => firstBadInMembers env rest
end

/-- Model of `json.Unmarshal(body, &str)` with `str` an `interface{}`: the
whole input must be one JSON value, and every number must fit a `float64`. -/
def jsonUnmarshalAny (env : Env) (body : Bytes) : Except LibError JValue :=
  match parseDocument body with
  | none => Except.error (LibError.syntaxErr body)
  | some v =>
    match firstBadNumber env v with
    | some lit => Except.error (LibError.unmarshalType (ascii "number " ++ lit) (ascii "float64"))
    | none => Except.ok v

/-! ## `http.NewRequest` -/

/-- Model of `httpguts.IsTokenRune` on a byte. -/
def isTokenByte (c : Nat) : Bool :=
  (48 ≤ c ∧ c ≤ 57) ∨ (65 ≤ c ∧ c ≤ 90) ∨ (97 ≤ c ∧ c ≤ 122)
    ∨ c ∈ [33, 35, 36, 37, 38, 39, 42, 43, 45, 46, 94, 95, 96, 124, 126]

/-- Model of `validMethod`. -/
def validMethod (m : Bytes) : Bool := !m.isEmpty && m.all isTokenByte

/-- Model of `stringContainsCTLByte`, the first check of `url.Parse`. -/
def containsCTLByte (s : Bytes) : Bool := s.any (fun b => b < 32 ∨ b = 127)

/-- Model of `http.NewRequest(method, url, body)`: the method must be a token and
the URL must parse; the request records its three arguments. -/
def httpNewRequest (env : Env) (method url body : Bytes) : Except GoError Request :=
  let m := if method.isEmpty then ascii "GET" else method
  if !validMethod m then Except.error (GoError.lib (LibError.newRequest m url))
  else if containsCTLByte url ∨ !env.urlAccepted url then
    Except.error (GoError.lib (LibError.newRequest m url))
  else Except.ok ⟨m, url, body⟩

/-! ## The client (`client.go`) -/

/-- The result of a call: it returned a value and an error (`none` is nil), or it panicked. -/
inductive Outcome (α : Type)
  | returned (value : α) (err : Option GoError)
  | panicked
  deriving DecidableEq, Repr

/-- A call of a client operation: its result and the requests it handed to
`http.DefaultClient.Do`, in order. -/
structure Run (α : Type) where
  outcome : Outcome α
  calls : List Request
  deriving DecidableEq, Repr

/-- The result of `doRequest`: the target `v` afterwards, the error returned
and the requests handed to `http.DefaultClient.Do`. -/
structure DoResult (τ : Type) where
  v : τ
  err : Option GoError
  calls : List Request

/-- Model of `(c *Client) newRequest(method, url, body)`; `body` is `none` for
a nil body, otherwise the `*accountBody` to serialise. -/
def newRequest (env : Env) (method url : Bytes) (body : Option accountBody) :
    Except GoError Request :=
  match body with
  | none => httpNewRequest env method url []
  | some b =>
    match marshalAccountBody env b with
    | Except.error e => Except.error (GoError.lib e)
    | Except.ok buf => httpNewRequest env method url buf

/-- Model of `(c *Client) doRequest(req, v)`; `um` is how `encoding/json` stores a value into `v`. -/
def doRequest {τ : Type} (env : Env) (um : Env → JValue → τ → τ × Option LibError)
    (req : Request) (v : τ) : DoResult τ :=
  match env.transport req with
  | Except.error e => ⟨v, some e, [req]⟩
  | Except.ok resp =>
    if resp.StatusCode < 200 ∨ resp.StatusCode ≥ 300 then
      match jsonUnmarshalAny env resp.Body with
      | Except.error e =>
        ⟨v, some (GoError.errorf (ascii "Error unmarshaling response error: "
          ++ (GoError.lib e).Error env)), [req]⟩
      | Except.ok str =>
        ⟨v, some (GoError.errorf (formatInt resp.StatusCode ++ ascii " Error: "
          ++ env.render str)), [req]⟩
    else
      let r := Decode env um resp.Body v
      match r.2 with
      | none => ⟨r.1, none, [req]⟩
      | some e =>
        if e = LibError.eof then ⟨r.1, none, [req]⟩
        else ⟨r.1, some (GoError.lib e), [req]⟩

/-- Create a new account for the given object. Error is returned if a failure is encountered. -/
def Create (env : Env) (c : Client) (a : Option Account) : Run (Option Account) :=
  let u := c.baseURL ++ ascii "/v1/organisation/accounts"
  match newRequest env (ascii "POST") u (some ⟨a⟩) with
  | Except.error e => ⟨Outcome.returned none (some e), []⟩
  | Except.ok req =>
    let r := doRequest env unmarshalBody req ⟨⟨some Account.zero⟩, Account.zero, true⟩
    match r.err with
    | some e => ⟨Outcome.returned none (some e), r.calls⟩
    | none => ⟨Outcome.returned (some r.v.account) none, r.calls⟩

/-- Delete the given account object; a nil `a` is dereferenced, which panics. -/
def Delete (env : Env) (c : Client) (a : Option Account) : Run Unit :=
  match a with
  | none => ⟨Outcome.panicked, []⟩
  | some a =>
    let u := c.baseURL ++ ascii "/v1/organisation/accounts/" ++ a.ID
      ++ ascii "?version=" ++ formatInt a.Version
    match newRequest env (ascii "DELETE") u none with
    | Except.error e => ⟨Outcome.returned () (some e), []⟩
    | Except.ok req =>
      let r := doRequest env unmarshalNil req ()
      match r.err with
      | some e => ⟨Outcome.returned () (some e), r.calls⟩
      | none => ⟨Outcome.returned () none, r.calls⟩

/-- List all accounts by specifying the size of the page and page number to
return; a nil `b` is dereferenced, which panics. -/
def List_ (env : Env) (c : Client) (pageSize pageNumber : Int) :
    Run (Option (List (Option Account))) :=
  let u := c.baseURL ++ ascii "/v1/organisation/accounts?page[size]=" ++ formatInt pageSize
    ++ ascii "&page[number]=" ++ formatInt pageNumber
  match newRequest env (ascii "GET") u none with
  | Except.error e => ⟨Outcome.returned none (some e), []⟩
  | Except.ok req =>
    let r := doRequest env unmarshalListBodyPtr req none
    match r.err with
    | some e => ⟨Outcome.returned none (some e), r.calls⟩
    | none =>
      match r.v with
      | none => ⟨Outcome.panicked, r.calls⟩
      | some b => ⟨Outcome.returned b.Accounts none, r.calls⟩

/-- Fetch an account by a given account ID; a nil `b` is dereferenced, which panics. -/
def Fetch (env : Env) (c : Client) (id : Bytes) : Run (Option Account) :=
  let u := c.baseURL ++ ascii "/v1/organisation/accounts/" ++ id
  match newRequest env (ascii "GET") u none with
  | Except.error e => ⟨Outcome.returned none (some e), []⟩
  | Except.ok req =>
    let r := doRequest env unmarshalBodyPtr req none
    match r.err with
    | some e => ⟨Outcome.returned none (some e), r.calls⟩
    | none =>
      match r.v with
      | none => ⟨Outcome.panicked, r.calls⟩
      | some b => ⟨Outcome.returned b.Account2 none, r.calls⟩

/-! ## A sample environment for worked examples -/

/-- The JSON text of the zero `time.Time`. -/
def zeroTimeJSON : Bytes := ascii "\"0001-01-01T00:00:00Z\""

/-- The order of Go strings: byte by byte, a proper prefix first. -/
def bytesLt : Bytes → Bytes → Bool
  | [], [] => false
  | [], _ :: _ => true
  | _ :: _, [] => false
  | a :: s, b :: t => a < b || (a = b && bytesLt s t)

/-- Store a key with its printed value among the entries of a map kept in key
order: a key already present gets the new value. -/
def insertEntry (k v : Bytes) : List (Bytes × Bytes) → List (Bytes × Bytes)
  | [] => [(k, v)]
  | (k1, v1) :: rest =>
    if k = k1 then (k, v) :: rest
    else if bytesLt k k1 then (k, v) :: (k1, v1) :: rest
    else (k1, v1) :: insertEntry k v rest

/-- The texts, separated by single spaces. -/
def joinSpace : List Bytes → Bytes
  | [] => []
  | [x] => x
  | x :: y :: rest => x ++ [32] ++ joinSpace (y :: rest)

mutual
/-- What `%v` prints for the Go value a JSON value decodes to in an
`interface{}`: `<nil>` for null, the decoded text of a string without quotes,
`[a b]` for a slice, and `map[k:v k2:v2]` with the keys in order for a map.
An integer literal of at most six digits is printed as it is written; the
`float64` texts of other number literals are not modelled, they are printed
as written too. -/
def goRender : JValue → Bytes
  | JValue.null => ascii "<nil>"
  | JValue.bool true => ascii "true"
  | JValue.bool false => ascii "false"
  | JValue.number lit => lit
  | JValue.string raw => keyOf raw
  | JValue.array elems => [91] ++ joinSpace (goRenderElems elems) ++ [93]
  | JValue.object members =>
    ascii "map[" ++ joinSpace ((goRenderMembers members []).map (fun e => e.1 ++ [58] ++ e.2))
      ++ [93]
/-- The printed elements of a slice. -/
def goRenderElems : List JValue → List Bytes
  | [] => []
  | v :: rest => goRender v :: goRenderElems rest
/-- The entries of the map an object decodes to, in key order: the members are
stored one after the other. -/
def goRenderMembers : List (Bytes × JValue) → List (Bytes × Bytes) → List (Bytes × Bytes)
  | [], acc => acc
  | (k, v) :: rest, acc => goRenderMembers rest (insertEntry (keyOf k) (goRender v) acc)
end

/-- A number literal `1e`*n* with *n* ≥ 309: its value is beyond the largest
`float64`, about 1.8e308. -/
def beyondFloat64 (lit : Bytes) : Bool :=
  match lit with
  | 49 :: 101 :: d :: ds =>
    match digitsValue (d :: ds) 0 with
    | some n => 309 ≤ n
    | none => false
  | _ => false

/-- A sample environment: the transport answers every request with `resp`,
`url.Parse` accepts every URL that has no control byte, the numbers `1e`*n*
from *n* = 309 on are out of the range of a `float64`, a decoded value is
printed by `goRender`, an error has the text Go gives it when it is the end of
the stream, a syntax error for an input that ends too early, a nil target, or
a value that does not fit a type outside a struct, and of all times only the
zero time, the one the examples use, has its JSON text. -/
def sampleEnv (resp : Response) : Env where
  transport := fun _ => Except.ok resp
  urlAccepted := fun _ => true
  timeMarshalJSON := fun t =>
    if t = Time.zero then Except.ok zeroTimeJSON else Except.error (LibError.marshaler t)
  timeUnmarshalJSON := fun b =>
    if b = zeroTimeJSON then Except.ok Time.zero else Except.error (LibError.timeParse b)
  floatOutOfRange := beyondFloat64
  render := goRender
  errText := fun e =>
    match e with
    | LibError.eof => ascii "EOF"
    | LibError.syntaxErr _ => ascii "unexpected end of JSON input"
    | LibError.invalidUnmarshal => ascii "json: Unmarshal(nil)"
    | LibError.unmarshalType v t =>
      ascii "json: cannot unmarshal " ++ v ++ ascii " into Go value of type " ++ t
    | _ => ascii "error"

/-- The client of the examples. -/
def sampleClient : Client := NewClient (ascii "http://localhost:8080")

/-! ## What the round trip of an account needs -/

/-- Text that a JSON string literal holds as it is: ASCII, no control byte, no
quote, no backslash and none of the bytes the HTML escaping rewrites. -/
def plainText (s : Bytes) : Bool :=
  s.all (fun c => 0x20 ≤ c ∧ c < 0x80 ∧ c ≠ 34 ∧ c ≠ 92 ∧ c ≠ 60 ∧ c ≠ 62 ∧ c ≠ 38)

/-- The JSON methods of `time.Time` restore this value: `MarshalJSON` writes it
as a quoted plain text, and `UnmarshalJSON` gives the same value back from it. -/
def timeRestored (env : Env) (t : Time) : Prop :=
  ∃ raw, plainText raw = true
    ∧ env.timeMarshalJSON t = Except.ok ([34] ++ raw ++ [34])
    ∧ env.timeUnmarshalJSON ([34] ++ raw ++ [34]) = Except.ok t

/-- Every string of the attributes is well-formed UTF-8. -/
def Attributes.validStrings (a : Attributes) : Bool :=
  ValidString a.AccountClassification && ValidString a.AccountNumber
    && (a.AlternativeBankAccountNames.getD []).all ValidString
    && ValidString a.BankAccountName && ValidString a.BankID && ValidString a.BankIDCode
    && ValidString a.BaseCurrency && ValidString a.Bic && ValidString a.Country
    && ValidString a.FirstName && ValidString a.Iban && ValidString a.SecondaryIdentification
    && ValidString a.Title

/-- Every string of the account is well-formed UTF-8. -/
def Account.validStrings (a : Account) : Bool :=
  a.Attributes.validStrings && ValidString a.ID && ValidString a.OrganisationID
    && ValidString a.Type_

/-- The text is scanned as the value `v`, with fuel `n` or more, in front of a
comma or a closing bracket. -/
def ParsesTo (text : Bytes) (v : JValue) (n : Nat) : Prop :=
  ∀ f, n ≤ f → ∀ c r, (c = 44 ∨ c = 125 ∨ c = 93) →
    parseValue f (text ++ c :: r) = some (v, c :: r)

/-- The value the scanner delimits in the text written for a string. -/
def stringValue (s : Bytes) : JValue := JValue.string (encodeStringAux s.length s)

/-- The values the scanner delimits in the text written for the elements of a string slice. -/
def stringValues (l : List Bytes) : List JValue := l.map stringValue

/-- The value the scanner delimits in the text written for a string slice. -/
def sliceValue : Option (List Bytes) → JValue
  | none => JValue.null
  | some l => JValue.array (stringValues l)

/-- The members the scanner delimits in a written object, given the values of its fields. -/
def memberValues : List (Bytes × Bytes) → List JValue → List (Bytes × JValue)
  | (k, _) :: fs, v :: vs => (k, v) :: memberValues fs vs
  | _, _ => []

/-- The values the scanner delimits in the text written for an `Attributes`. -/
def attributeValues (a : Attributes) : List JValue :=
  [stringValue a.AccountClassification, JValue.bool a.AccountMatchingOptOut,
   stringValue a.AccountNumber, sliceValue a.AlternativeBankAccountNames,
   stringValue a.BankAccountName, stringValue a.BankID, stringValue a.BankIDCode,
   stringValue a.BaseCurrency, stringValue a.Bic, stringValue a.Country,
   stringValue a.FirstName, stringValue a.Iban, JValue.bool a.JointAccount,
   stringValue a.SecondaryIdentification, stringValue a.Title]

/-- The value the scanner delimits in the text written for an `Attributes`. -/
def attributesValue (a : Attributes) : JValue :=
  JValue.object (memberValues (attributeFields a) (attributeValues a))

/-- The values the scanner delimits in the text written for an `Account`
whose times are written as the quoted texts `created` and `modified`. -/
def accountValues (a : Account) (created modified : Bytes) : List JValue :=
  [attributesValue a.Attributes, JValue.string created, stringValue a.ID,
   JValue.string modified, stringValue a.OrganisationID, stringValue a.Type_,
   JValue.number (formatInt a.Version)]

/-- The account of the round-trip example: all fields zero but the first name,
which is the single byte `0xff`, not well-formed UTF-8. -/
def badAccount : Account :=
  { Account.zero with
    ID := ascii "x"
    Attributes := { Attributes.zero with FirstName := [0xff] } }

/-- The account of the round-trip example with well-formed strings: among
them a first name with a two-byte rune, a name with bytes the encoder escapes,
a name that is the rune U+2028, and a negative version. -/
def goodAccount : Account :=
  { Attributes :=
      { Attributes.zero with
        AccountClassification := ascii "Personal"
        AlternativeBankAccountNames := some [ascii "Sam Holder", [0xE2, 0x80, 0xA8]]
        BankAccountName := ascii "Sam <Holder> & \"co\""
        Country := ascii "GB"
        FirstName := [83, 97, 109, 0xC3, 0xA9]
        JointAccount := true }
    CreatedOn := Time.zero
    ID := ascii "ad27e265-9605-4b4b-a0e5-3003ea9cc4dc"
    ModifiedOn := Time.zero
    OrganisationID := ascii "eb0bd6f5-c3f5-44b2-b677-acd23cdde73c"
    Type_ := ascii "accounts"
    Version := -12 }

/-- The body `Create` sends for `goodAccount`. -/
def goodBody : Bytes :=
  ascii "\x7b\"data\":\x7b\"attributes\":\x7b\"account_classification\":\"Personal\",\"account_matching_opt_out\":false,\"account_number\":\"\",\"alternative_bank_account_names\":[\"Sam Holder\",\"\\u2028\"],\"bank_account_name\":\"Sam \\u003cHolder\\u003e \\u0026 \\\"co\\\"\",\"bank_id\":\"\",\"bank_id_code\":\"\",\"base_currency\":\"\",\"bic\":\"\",\"country\":\"GB\",\"first_name\":\"Sam"
    ++ [0xC3, 0xA9]
    ++ ascii "\",\"iban\":\"\",\"joint_account\":true,\"secondary_identification\":\"\",\"title\":\"\"\x7d,\"created_on\":\"0001-01-01T00:00:00Z\",\"id\":\"ad27e265-9605-4b4b-a0e5-3003ea9cc4dc\",\"modified_on\":\"0001-01-01T00:00:00Z\",\"organisation_id\":\"eb0bd6f5-c3f5-44b2-b677-acd23cdde73c\",\"type\":\"accounts\",\"version\":-12\x7d\x7d"

/-- The body `Create` sends for `badAccount`: the first name is written as the escape of U+FFFD. -/
def badBody : Bytes :=
  ascii "\x7b\"data\":\x7b\"attributes\":\x7b\"account_classification\":\"\",\"account_matching_opt_out\":false,\"account_number\":\"\",\"alternative_bank_account_names\":null,\"bank_account_name\":\"\",\"bank_id\":\"\",\"bank_id_code\":\"\",\"base_currency\":\"\",\"bic\":\"\",\"country\":\"\",\"first_name\":\"\\ufffd\",\"iban\":\"\",\"joint_account\":false,\"secondary_identification\":\"\",\"title\":\"\"\x7d,\"created_on\":\"0001-01-01T00:00:00Z\",\"id\":\"x\",\"modified_on\":\"0001-01-01T00:00:00Z\",\"organisation_id\":\"\",\"type\":\"\",\"version\":0\x7d\x7d"

/-! ## Theorems -/

set_option maxRecDepth 100000

/-- `doRequest` hands its request to the transport exactly once. -/
theorem doRequest_calls {τ : Type} (env : Env) (um : Env → JValue → τ → τ × Option LibError)
    (req : Request) (v : τ) : (doRequest env um req v).calls = [req] := by
  unfold doRequest
  split
  · rfl
  · split
    · split <;> rfl
    · dsimp only
      split
      · rfl
      · split <;> rfl

/-- What `doRequest` returns for a response with a status outside [200, 300). -/
theorem doRequest_non2xx {τ : Type} (env : Env) (um : Env → JValue → τ → τ × Option LibError)
    (req : Request) (v : τ) (resp : Response) (ht : env.transport req = Except.ok resp)
    (hs : resp.StatusCode < 200 ∨ resp.StatusCode ≥ 300) :
    (doRequest env um req v).err =
      match jsonUnmarshalAny env resp.Body with
      | Except.error e =>
        some (GoError.errorf (ascii "Error unmarshaling response error: " ++ env.errText e))
      | Except.ok p =>
        some (GoError.errorf (formatInt resp.StatusCode ++ ascii " Error: " ++ env.render p)) := by
  unfold doRequest
  rw [ht]
  simp only [hs, if_true]
  cases jsonUnmarshalAny env resp.Body <;> rfl

/-- What `doRequest` returns for a response with a status in [200, 300). -/
theorem doRequest_2xx {τ : Type} (env : Env) (um : Env → JValue → τ → τ × Option LibError)
    (req : Request) (v : τ) (resp : Response) (ht : env.transport req = Except.ok resp)
    (hs : 200 ≤ resp.StatusCode ∧ resp.StatusCode < 300) :
    (doRequest env um req v).err =
      (match (Decode env um resp.Body v).2 with
       | none => none
       | some e => if e = LibError.eof then none else some (GoError.lib e))
    ∧ (doRequest env um req v).v = (Decode env um resp.Body v).1 := by
  unfold doRequest
  rw [ht]
  have hn : ¬ (resp.StatusCode < 200 ∨ resp.StatusCode ≥ 300) := by omega
  simp only [hn, if_false]
  cases h : (Decode env um resp.Body v).2 with
  | none => exact ⟨rfl, rfl⟩
  | some e =>
    by_cases he : e = LibError.eof
    · simp [he]
    · simp [he]

/-- `doRequest` returns an error whenever the transport fails. -/
theorem doRequest_transport_error {τ : Type} (env : Env)
    (um : Env → JValue → τ → τ × Option LibError) (req : Request) (v : τ) (e : GoError)
    (ht : env.transport req = Except.error e) : (doRequest env um req v).err = some e := by
  unfold doRequest
  rw [ht]

/-- `doRequest` fails for every status outside [200, 300). -/
theorem doRequest_non2xx_isSome {τ : Type} (env : Env)
    (um : Env → JValue → τ → τ × Option LibError)
    (req : Request) (v : τ) (resp : Response) (ht : env.transport req = Except.ok resp)
    (hs : resp.StatusCode < 200 ∨ resp.StatusCode ≥ 300) :
    ∃ e, (doRequest env um req v).err = some e := by
  rw [doRequest_non2xx env um req v resp ht hs]
  cases jsonUnmarshalAny env resp.Body <;> exact ⟨_, rfl⟩

/-- A request built by `http.NewRequest` records the method and the URL it was given. -/
theorem httpNewRequest_ok (env : Env) (m u b : Bytes) (req : Request) (hm : m ≠ [])
    (h : httpNewRequest env m u b = Except.ok req) : req = ⟨m, u, b⟩ := by
  unfold httpNewRequest at h
  have hne : m.isEmpty = false := by
    cases m with
    | nil => exact absurd rfl hm
    | cons x xs => rfl
  simp only [hne, Bool.false_eq_true, if_false] at h
  by_cases h1 : (!validMethod m) = true
  · rw [if_pos h1] at h
    cases h
  · rw [if_neg h1] at h
    by_cases h2 : containsCTLByte u = true ∨ (!env.urlAccepted u) = true
    · rw [if_pos h2] at h
      cases h
    · rw [if_neg h2] at h
      injection h with h
      exact h.symm

/-- A request built by `newRequest` has the method and the URL it was given. -/
theorem newRequest_ok (env : Env) (m u : Bytes) (body : Option accountBody) (req : Request)
    (hm : m ≠ []) (h : newRequest env m u body = Except.ok req) :
    req.Method = m ∧ req.URL = u := by
  unfold newRequest at h
  cases body with
  | none =>
    have := httpNewRequest_ok env m u [] req hm h
    subst this
    exact ⟨rfl, rfl⟩
  | some b =>
    dsimp only at h
    cases hb : marshalAccountBody env b with
    | error e => rw [hb] at h; cases h
    | ok buf =>
      rw [hb] at h
      have := httpNewRequest_ok env m u buf req hm h
      subst this
      exact ⟨rfl, rfl⟩

/-- The requests `Create` hands to the transport: none when the request
cannot be built, otherwise the one built. -/
theorem Create_calls (env : Env) (c : Client) (a : Option Account) :
    (Create env c a).calls =
      match newRequest env (ascii "POST") (c.baseURL ++ ascii "/v1/organisation/accounts")
        (some ⟨a⟩) with
      | Except.error _ => []
      | Except.ok req => [req] := by
  unfold Create
  dsimp only
  cases newRequest env (ascii "POST") (c.baseURL ++ ascii "/v1/organisation/accounts")
      (some ⟨a⟩) with
  | error e => rfl
  | ok req =>
    dsimp only
    split <;> exact doRequest_calls _ _ _ _

/-- The requests `Fetch` hands to the transport. -/
theorem Fetch_calls (env : Env) (c : Client) (id : Bytes) :
    (Fetch env c id).calls =
      match newRequest env (ascii "GET") (c.baseURL ++ ascii "/v1/organisation/accounts/" ++ id)
        none with
      | Except.error _ => []
      | Except.ok req => [req] := by
  unfold Fetch
  dsimp only
  cases newRequest env (ascii "GET") (c.baseURL ++ ascii "/v1/organisation/accounts/" ++ id)
      none with
  | error e => rfl
  | ok req =>
    dsimp only
    split
    · exact doRequest_calls _ _ _ _
    · split <;> exact doRequest_calls _ _ _ _

/-- The requests `List` hands to the transport. -/
theorem List_calls (env : Env) (c : Client) (n p : Int) :
    (List_ env c n p).calls =
      match newRequest env (ascii "GET")
        (c.baseURL ++ ascii "/v1/organisation/accounts?page[size]=" ++ formatInt n
          ++ ascii "&page[number]=" ++ formatInt p) none with
      | Except.error _ => []
      | Except.ok req => [req] := by
  unfold List_
  dsimp only
  cases newRequest env (ascii "GET")
      (c.baseURL ++ ascii "/v1/organisation/accounts?page[size]=" ++ formatInt n
        ++ ascii "&page[number]=" ++ formatInt p) none with
  | error e => rfl
  | ok req =>
    dsimp only
    split
    · exact doRequest_calls _ _ _ _
    · split <;> exact doRequest_calls _ _ _ _

/-- The requests `Delete` hands to the transport for a non-nil account. -/
theorem Delete_calls (env : Env) (c : Client) (a : Account) :
    (Delete env c (some a)).calls =
      match newRequest env (ascii "DELETE")
        (c.baseURL ++ ascii "/v1/organisation/accounts/" ++ a.ID
          ++ ascii "?version=" ++ formatInt a.Version) none with
      | Except.error _ => []
      | Except.ok req => [req] := by
  unfold Delete
  dsimp only
  cases newRequest env (ascii "DELETE")
      (c.baseURL ++ ascii "/v1/organisation/accounts/" ++ a.ID
        ++ ascii "?version=" ++ formatInt a.Version) none with
  | error e => rfl
  | ok req =>
    dsimp only
    split <;> exact doRequest_calls _ _ _ _

/-- What `http.NewRequest` returns for a valid method: the request recording
its three arguments when the URL has no control byte and parses, an error otherwise. -/
theorem httpNewRequest_eq (env : Env) (m u b : Bytes) (hm : validMethod m = true) :
    httpNewRequest env m u b =
      if containsCTLByte u = false ∧ env.urlAccepted u = true then Except.ok ⟨m, u, b⟩
      else Except.error (GoError.lib (LibError.newRequest m u)) := by
  unfold httpNewRequest
  have hne : m.isEmpty = false := by
    cases m with
    | nil => cases hm
    | cons x xs => rfl
  simp only [hne, Bool.false_eq_true, if_false, hm, Bool.not_true]
  cases containsCTLByte u <;> cases env.urlAccepted u <;> simp

/-- The requests handed over after `http.NewRequest` with a valid method. -/
theorem calls_of_httpNewRequest (env : Env) (m u b : Bytes) (hm : validMethod m = true) :
    (match httpNewRequest env m u b with
      | Except.error _ => []
      | Except.ok req => [req])
    = if containsCTLByte u = false ∧ env.urlAccepted u = true then [(⟨m, u, b⟩ : Request)]
      else [] := by
  rw [httpNewRequest_eq env m u b hm]
  by_cases hc : containsCTLByte u = false ∧ env.urlAccepted u = true
  · rw [if_pos hc, if_pos hc]
  · rw [if_neg hc, if_neg hc]

/-- C2. For every base URL, account, id and page integers (zero and negative
ones included), each operation hands to the transport exactly the request of
the wire table whenever `http.NewRequest` accepts its URL (no control byte,
and it parses), and nothing otherwise: Create a POST to
`b/v1/organisation/accounts` with the serialised envelope as its body (and
nothing when the envelope does not serialise), Fetch a GET to
`b/v1/organisation/accounts/i`, Delete a DELETE to
`b/v1/organisation/accounts/ID?version=Version`, List a GET to
`b/v1/organisation/accounts?page[size]=n&page[number]=p`, numbers in decimal
and the last three without a body; and Delete depends on no field of the
account but ID and Version. -/
theorem C2_wire_table (env : Env) (c : Client) :
    (∀ a, (Create env c a).calls =
      match marshalAccountBody env ⟨a⟩ with
      | Except.error _ => []
      | Except.ok buf =>
        if containsCTLByte (c.baseURL ++ ascii "/v1/organisation/accounts") = false
            ∧ env.urlAccepted (c.baseURL ++ ascii "/v1/organisation/accounts") = true
        then [⟨ascii "POST", c.baseURL ++ ascii "/v1/organisation/accounts", buf⟩]
        else [])
    ∧ (∀ i, (Fetch env c i).calls =
      if containsCTLByte (c.baseURL ++ ascii "/v1/organisation/accounts/" ++ i) = false
          ∧ env.urlAccepted (c.baseURL ++ ascii "/v1/organisation/accounts/" ++ i) = true
      then [⟨ascii "GET", c.baseURL ++ ascii "/v1/organisation/accounts/" ++ i, []⟩]
      else [])
    ∧ (∀ a : Account, (Delete env c (some a)).calls =
      if containsCTLByte (c.baseURL ++ ascii "/v1/organisation/accounts/" ++ a.ID
            ++ ascii "?version=" ++ formatInt a.Version) = false
          ∧ env.urlAccepted (c.baseURL ++ ascii "/v1/organisation/accounts/" ++ a.ID
            ++ ascii "?version=" ++ formatInt a.Version) = true
      then [⟨ascii "DELETE", c.baseURL ++ ascii "/v1/organisation/accounts/" ++ a.ID
            ++ ascii "?version=" ++ formatInt a.Version, []⟩]
      else [])
    ∧ (∀ n p, (List_ env c n p).calls =
      if containsCTLByte (c.baseURL ++ ascii "/v1/organisation/accounts?page[size]="
            ++ formatInt n ++ ascii "&page[number]=" ++ formatInt p) = false
          ∧ env.urlAccepted (c.baseURL ++ ascii "/v1/organisation/accounts?page[size]="
            ++ formatInt n ++ ascii "&page[number]=" ++ formatInt p) = true
      then [⟨ascii "GET", c.baseURL ++ ascii "/v1/organisation/accounts?page[size]="
            ++ formatInt n ++ ascii "&page[number]=" ++ formatInt p, []⟩]
      else [])
    ∧ (∀ a b : Account, a.ID = b.ID → a.Version = b.Version →
      Delete env c (some a) = Delete env c (some b)) := by
  refine ⟨?_, ?_, ?_, ?_, ?_⟩
  · intro a
    rw [Create_calls]
    unfold newRequest
    dsimp only
    cases marshalAccountBody env ⟨a⟩ with
    | error e => rfl
    | ok buf =>
      dsimp only
      exact calls_of_httpNewRequest env _ _ _ (by decide)
  · intro i
    rw [Fetch_calls]
    unfold newRequest
    dsimp only
    exact calls_of_httpNewRequest env _ _ _ (by decide)
  · intro a
    rw [Delete_calls]
    unfold newRequest
    dsimp only
    exact calls_of_httpNewRequest env _ _ _ (by decide)
  · intro n p
    rw [List_calls]
    unfold newRequest
    dsimp only
    exact calls_of_httpNewRequest env _ _ _ (by decide)
  · intro a b hid hver
    unfold Delete
    simp only [hid, hver]

/-- C2 on worked examples: the one request each operation hands to the
transport, for Create of the sample account, Fetch of the id `x`, Delete of
the account with id `ab` and version -3, and List of page -1 with page size 0. -/
theorem C2_wire_table_witness :
    (Create (sampleEnv ⟨201, goodBody⟩) sampleClient (some goodAccount)).calls
      = [⟨ascii "POST", ascii "http://localhost:8080/v1/organisation/accounts", goodBody⟩]
    ∧ (Fetch (sampleEnv ⟨200, goodBody⟩) sampleClient (ascii "x")).calls
      = [⟨ascii "GET", ascii "http://localhost:8080/v1/organisation/accounts/x", []⟩]
    ∧ (Delete (sampleEnv ⟨204, []⟩) sampleClient
        (some { Account.zero with ID := ascii "ab", Version := -3 })).calls
      = [⟨ascii "DELETE", ascii "http://localhost:8080/v1/organisation/accounts/ab?version=-3",
          []⟩]
    ∧ (List_ (sampleEnv ⟨200, ascii "\x7b\x7d"⟩) sampleClient 0 (-1)).calls
      = [⟨ascii "GET",
          ascii "http://localhost:8080/v1/organisation/accounts?page[size]=0&page[number]=-1",
          []⟩] :=
  ⟨((C2_wire_table (sampleEnv ⟨201, goodBody⟩) sampleClient).1 (some goodAccount)).trans rfl,
   ((C2_wire_table (sampleEnv ⟨200, goodBody⟩) sampleClient).2.1 (ascii "x")).trans rfl,
   ((C2_wire_table (sampleEnv ⟨204, []⟩) sampleClient).2.2.1
      { Account.zero with ID := ascii "ab", Version := -3 }).trans rfl,
   ((C2_wire_table (sampleEnv ⟨200, ascii "\x7b\x7d"⟩) sampleClient).2.2.2.1 0 (-1)).trans rfl⟩

/-- `Create` once its request is built and `doRequest` has failed. -/
theorem Create_of_err (env : Env) (c : Client) (a : Option Account) (req : Request) (e : GoError)
    (h : newRequest env (ascii "POST") (c.baseURL ++ ascii "/v1/organisation/accounts")
      (some ⟨a⟩) = Except.ok req)
    (he : (doRequest env unmarshalBody req ⟨⟨some Account.zero⟩, Account.zero, true⟩).err = some e) :
    Create env c a = ⟨Outcome.returned none (some e), [req]⟩ := by
  unfold Create
  simp only [h, he, doRequest_calls]

/-- `Create` once its request is built and `doRequest` has succeeded. -/
theorem Create_of_ok (env : Env) (c : Client) (a : Option Account) (req : Request)
    (h : newRequest env (ascii "POST") (c.baseURL ++ ascii "/v1/organisation/accounts")
      (some ⟨a⟩) = Except.ok req)
    (he : (doRequest env unmarshalBody req ⟨⟨some Account.zero⟩, Account.zero, true⟩).err = none) :
    Create env c a = ⟨Outcome.returned (some (doRequest env unmarshalBody req
      ⟨⟨some Account.zero⟩, Account.zero, true⟩).v.account) none, [req]⟩ := by
  unfold Create
  simp only [h, he, doRequest_calls]

/-- `Fetch` once its request is built and `doRequest` has failed. -/
theorem Fetch_of_err (env : Env) (c : Client) (id : Bytes) (req : Request) (e : GoError)
    (h : newRequest env (ascii "GET") (c.baseURL ++ ascii "/v1/organisation/accounts/" ++ id)
      none = Except.ok req)
    (he : (doRequest env unmarshalBodyPtr req none).err = some e) :
    Fetch env c id = ⟨Outcome.returned none (some e), [req]⟩ := by
  unfold Fetch
  simp only [h, he, doRequest_calls]

/-- `Fetch` once its request is built and `doRequest` has succeeded: it
dereferences the envelope pointer. -/
theorem Fetch_of_ok (env : Env) (c : Client) (id : Bytes) (req : Request)
    (h : newRequest env (ascii "GET") (c.baseURL ++ ascii "/v1/organisation/accounts/" ++ id)
      none = Except.ok req)
    (he : (doRequest env unmarshalBodyPtr req none).err = none) :
    Fetch env c id =
      match (doRequest env unmarshalBodyPtr req none).v with
      | none => ⟨Outcome.panicked, [req]⟩
      | some b => ⟨Outcome.returned b.Account2 none, [req]⟩ := by
  unfold Fetch
  simp only [h, he, doRequest_calls]

/-- `List` once its request is built and `doRequest` has failed. -/
theorem List_of_err (env : Env) (c : Client) (n p : Int) (req : Request) (e : GoError)
    (h : newRequest env (ascii "GET")
      (c.baseURL ++ ascii "/v1/organisation/accounts?page[size]=" ++ formatInt n
        ++ ascii "&page[number]=" ++ formatInt p) none = Except.ok req)
    (he : (doRequest env unmarshalListBodyPtr req none).err = some e) :
    List_ env c n p = ⟨Outcome.returned none (some e), [req]⟩ := by
  unfold List_
  simp only [h, he, doRequest_calls]

/-- `List` once its request is built and `doRequest` has succeeded: it
dereferences the envelope pointer. -/
theorem List_of_ok (env : Env) (c : Client) (n p : Int) (req : Request)
    (h : newRequest env (ascii "GET")
      (c.baseURL ++ ascii "/v1/organisation/accounts?page[size]=" ++ formatInt n
        ++ ascii "&page[number]=" ++ formatInt p) none = Except.ok req)
    (he : (doRequest env unmarshalListBodyPtr req none).err = none) :
    List_ env c n p =
      match (doRequest env unmarshalListBodyPtr req none).v with
      | none => ⟨Outcome.panicked, [req]⟩
      | some b => ⟨Outcome.returned b.Accounts none, [req]⟩ := by
  unfold List_
  simp only [h, he, doRequest_calls]

/-- `Delete` once its request is built: it returns what `doRequest` returns. -/
theorem Delete_of_built (env : Env) (c : Client) (a : Account) (req : Request)
    (h : newRequest env (ascii "DELETE")
      (c.baseURL ++ ascii "/v1/organisation/accounts/" ++ a.ID
        ++ ascii "?version=" ++ formatInt a.Version) none = Except.ok req) :
    Delete env c (some a) = ⟨Outcome.returned () (doRequest env unmarshalNil req ()).err, [req]⟩ := by
  unfold Delete
  simp only [h, doRequest_calls]
  cases (doRequest env unmarshalNil req ()).err <;> rfl

/-- C1. For each of Create, Fetch, List and Delete: when the transport answers
the request the operation built with a response whose status code is below 200
or at least 300, whatever its body, the operation returns a non-nil error
after that one round trip (and Create, Fetch and List return no value with it). -/
theorem C1_non2xx_returns_error (env : Env) (c : Client) (req : Request) (resp : Response)
    (ht : env.transport req = Except.ok resp)
    (hs : resp.StatusCode < 200 ∨ resp.StatusCode ≥ 300) :
    (∀ (τ : Type) (um : Env → JValue → τ → τ × Option LibError) (v : τ),
      ∃ e, (doRequest env um req v).err = some e)
    ∧ (∀ a, newRequest env (ascii "POST") (c.baseURL ++ ascii "/v1/organisation/accounts")
        (some ⟨a⟩) = Except.ok req →
      ∃ e, Create env c a = ⟨Outcome.returned none (some e), [req]⟩)
    ∧ (∀ id, newRequest env (ascii "GET")
        (c.baseURL ++ ascii "/v1/organisation/accounts/" ++ id) none = Except.ok req →
      ∃ e, Fetch env c id = ⟨Outcome.returned none (some e), [req]⟩)
    ∧ (∀ n p, newRequest env (ascii "GET")
        (c.baseURL ++ ascii "/v1/organisation/accounts?page[size]=" ++ formatInt n
          ++ ascii "&page[number]=" ++ formatInt p) none = Except.ok req →
      ∃ e, List_ env c n p = ⟨Outcome.returned none (some e), [req]⟩)
    ∧ (∀ a : Account, newRequest env (ascii "DELETE")
        (c.baseURL ++ ascii "/v1/organisation/accounts/" ++ a.ID
          ++ ascii "?version=" ++ formatInt a.Version) none = Except.ok req →
      ∃ e, Delete env c (some a) = ⟨Outcome.returned () (some e), [req]⟩) := by
  have key : ∀ (τ : Type) (um : Env → JValue → τ → τ × Option LibError) (v : τ),
      ∃ e, (doRequest env um req v).err = some e := by
    intro τ um v
    exact doRequest_non2xx_isSome env um req v resp ht hs
  refine ⟨key, ?_, ?_, ?_, ?_⟩
  · intro a h
    obtain ⟨e, he⟩ := key _ unmarshalBody ⟨⟨some Account.zero⟩, Account.zero, true⟩
    exact ⟨e, Create_of_err env c a req e h he⟩
  · intro id h
    obtain ⟨e, he⟩ := key _ unmarshalBodyPtr none
    exact ⟨e, Fetch_of_err env c id req e h he⟩
  · intro n p h
    obtain ⟨e, he⟩ := key _ unmarshalListBodyPtr none
    exact ⟨e, List_of_err env c n p req e h he⟩
  · intro a h
    obtain ⟨e, he⟩ := key _ unmarshalNil ()
    exact ⟨e, by rw [Delete_of_built env c a req h, he]⟩

/-- C1 at the status codes 300 and 199: Fetch of the id `x` answered with
status 300 and an empty body, and Delete of the zero account answered with
status 199 and the body `{}`, each return an error after one round trip. -/
theorem C1_non2xx_returns_error_witness :
    ((sampleEnv ⟨300, []⟩).transport
          ⟨ascii "GET", ascii "http://localhost:8080/v1/organisation/accounts/x", []⟩
        = Except.ok ⟨300, []⟩
      ∧ ((300 : Int) < 200 ∨ (300 : Int) ≥ 300)
      ∧ ∃ e, Fetch (sampleEnv ⟨300, []⟩) sampleClient (ascii "x")
          = ⟨Outcome.returned none (some e),
            [⟨ascii "GET", ascii "http://localhost:8080/v1/organisation/accounts/x", []⟩]⟩)
    ∧ ((sampleEnv ⟨199, ascii "\x7b\x7d"⟩).transport
          ⟨ascii "DELETE", ascii "http://localhost:8080/v1/organisation/accounts/?version=0", []⟩
        = Except.ok ⟨199, ascii "\x7b\x7d"⟩
      ∧ ((199 : Int) < 200 ∨ (199 : Int) ≥ 300)
      ∧ ∃ e, Delete (sampleEnv ⟨199, ascii "\x7b\x7d"⟩) sampleClient (some Account.zero)
          = ⟨Outcome.returned () (some e),
            [⟨ascii "DELETE", ascii "http://localhost:8080/v1/organisation/accounts/?version=0",
              []⟩]⟩) :=
  ⟨⟨rfl, by decide,
    (C1_non2xx_returns_error (sampleEnv ⟨300, []⟩) sampleClient
      ⟨ascii "GET", ascii "http://localhost:8080/v1/organisation/accounts/x", []⟩ ⟨300, []⟩
      rfl (by decide)).2.2.1 (ascii "x") rfl⟩,
   ⟨rfl, by decide,
    (C1_non2xx_returns_error (sampleEnv ⟨199, ascii "\x7b\x7d"⟩) sampleClient
      ⟨ascii "DELETE", ascii "http://localhost:8080/v1/organisation/accounts/?version=0", []⟩
      ⟨199, ascii "\x7b\x7d"⟩ rfl (by decide)).2.2.2.2 Account.zero rfl⟩⟩

/-- C4, refuted as stated: the body `1e999` is a valid JSON value, a number,
but it is beyond the range of a `float64`, so decoding it fails; for a response
with status 500 and that body, Fetch returns the decoding failure, whose
message is not the status code followed by ` Error: ` and a payload. -/
theorem C4_counterexample :
    parseDocument (ascii "1e999") = some (JValue.number (ascii "1e999"))
    ∧ Fetch (sampleEnv ⟨500, ascii "1e999"⟩) sampleClient (ascii "x")
      = ⟨Outcome.returned none (some (GoError.errorf (ascii
          "Error unmarshaling response error: json: cannot unmarshal number 1e999 into Go value of type float64"))),
        [⟨ascii "GET", ascii "http://localhost:8080/v1/organisation/accounts/x", []⟩]⟩
    ∧ ∀ payload : Bytes, ascii
        "Error unmarshaling response error: json: cannot unmarshal number 1e999 into Go value of type float64"
      ≠ ascii "500 Error: " ++ payload := by
  refine ⟨rfl, rfl, ?_⟩
  intro payload h
  have h1 : List.take 1 (ascii
      "Error unmarshaling response error: json: cannot unmarshal number 1e999 into Go value of type float64")
      = [53] := (congrArg (List.take 1) h).trans rfl
  exact absurd h1 (by decide)

/-- C4, amended. When the response has a status outside [200, 300) and its
body is one valid JSON value `p` in which every number is within the range of
a `float64`, so that `json.Unmarshal` decodes it, the error `doRequest`
returns, and so the error of Create, Fetch, List and Delete once their request
is built, has as its message the decimal status code, then ` Error: `, then
the `%v` text of `p`; no account comes with it. -/
theorem C4_error_embeds_status_and_payload (env : Env) (c : Client) (req : Request)
    (resp : Response) (p : JValue) (ht : env.transport req = Except.ok resp)
    (hs : resp.StatusCode < 200 ∨ resp.StatusCode ≥ 300)
    (hv : parseDocument resp.Body = some p) (hn : firstBadNumber env p = none) :
    (∀ (τ : Type) (um : Env → JValue → τ → τ × Option LibError) (v : τ),
      (doRequest env um req v).err = some (GoError.errorf
        (formatInt resp.StatusCode ++ ascii " Error: " ++ env.render p)))
    ∧ (∀ a, newRequest env (ascii "POST") (c.baseURL ++ ascii "/v1/organisation/accounts")
        (some ⟨a⟩) = Except.ok req →
      Create env c a = ⟨Outcome.returned none (some (GoError.errorf
        (formatInt resp.StatusCode ++ ascii " Error: " ++ env.render p))), [req]⟩)
    ∧ (∀ id, newRequest env (ascii "GET")
        (c.baseURL ++ ascii "/v1/organisation/accounts/" ++ id) none = Except.ok req →
      Fetch env c id = ⟨Outcome.returned none (some (GoError.errorf
        (formatInt resp.StatusCode ++ ascii " Error: " ++ env.render p))), [req]⟩)
    ∧ (∀ n q, newRequest env (ascii "GET")
        (c.baseURL ++ ascii "/v1/organisation/accounts?page[size]=" ++ formatInt n
          ++ ascii "&page[number]=" ++ formatInt q) none = Except.ok req →
      List_ env c n q = ⟨Outcome.returned none (some (GoError.errorf
        (formatInt resp.StatusCode ++ ascii " Error: " ++ env.render p))), [req]⟩)
    ∧ (∀ a : Account, newRequest env (ascii "DELETE")
        (c.baseURL ++ ascii "/v1/organisation/accounts/" ++ a.ID
          ++ ascii "?version=" ++ formatInt a.Version) none = Except.ok req →
      Delete env c (some a) = ⟨Outcome.returned () (some (GoError.errorf
        (formatInt resp.StatusCode ++ ascii " Error: " ++ env.render p))), [req]⟩) := by
  have hp : jsonUnmarshalAny env resp.Body = Except.ok p := by
    unfold jsonUnmarshalAny
    rw [hv]
    dsimp only
    rw [hn]
  have key : ∀ (τ : Type) (um : Env → JValue → τ → τ × Option LibError) (v : τ),
      (doRequest env um req v).err = some (GoError.errorf
        (formatInt resp.StatusCode ++ ascii " Error: " ++ env.render p)) := by
    intro τ um v
    rw [doRequest_non2xx env um req v resp ht hs, hp]
  refine ⟨key, ?_, ?_, ?_, ?_⟩
  · intro a h
    exact Create_of_err env c a req _ h (key _ _ _)
  · intro id h
    exact Fetch_of_err env c id req _ h (key _ _ _)
  · intro n q h
    exact List_of_err env c n q req _ h (key _ _ _)
  · intro a h
    rw [Delete_of_built env c a req h, key]

/-- The response of the worked example for C4: status 404 with the JSON error
body `{"error_message":"x"}`, which decodes to a map that `%v` prints as
`map[error_message:x]`. -/
theorem C4_error_embeds_status_and_payload_witness :
    (sampleEnv ⟨404, ascii "\x7b\"error_message\":\"x\"\x7d"⟩).transport
        ⟨ascii "GET", ascii "http://localhost:8080/v1/organisation/accounts/x", []⟩
      = Except.ok ⟨404, ascii "\x7b\"error_message\":\"x\"\x7d"⟩
    ∧ ((404 : Int) < 200 ∨ (404 : Int) ≥ 300)
    ∧ parseDocument (ascii "\x7b\"error_message\":\"x\"\x7d")
      = some (JValue.object [(ascii "error_message", JValue.string (ascii "x"))])
    ∧ Fetch (sampleEnv ⟨404, ascii "\x7b\"error_message\":\"x\"\x7d"⟩) sampleClient (ascii "x")
      = ⟨Outcome.returned none (some (GoError.errorf
          (ascii "404 Error: map[error_message:x]"))),
        [⟨ascii "GET", ascii "http://localhost:8080/v1/organisation/accounts/x", []⟩]⟩ :=
  ⟨rfl, by decide, rfl, (C4_error_embeds_status_and_payload
    (sampleEnv ⟨404, ascii "\x7b\"error_message\":\"x\"\x7d"⟩) sampleClient
    ⟨ascii "GET", ascii "http://localhost:8080/v1/organisation/accounts/x", []⟩
    ⟨404, ascii "\x7b\"error_message\":\"x\"\x7d"⟩
    (JValue.object [(ascii "error_message", JValue.string (ascii "x"))])
    rfl (by decide) rfl rfl).2.2.1 (ascii "x") rfl⟩

/-- The digits `formatNatAux` writes start with a decimal digit when the
accumulator does or when there is fuel left. -/
theorem formatNatAux_head (fuel n : Nat) (acc : Bytes)
    (h : 0 < fuel ∨ ∃ d t, acc = d :: t ∧ 48 ≤ d ∧ d ≤ 57) :
    ∃ d t, formatNatAux fuel n acc = d :: t ∧ 48 ≤ d ∧ d ≤ 57 := by
  induction fuel generalizing n acc with
  | zero =>
    rcases h with h | h
    · omega
    · simpa [formatNatAux] using h
  | succ k ih =>
    unfold formatNatAux
    by_cases hn : n < 10
    · rw [if_pos hn]
      exact ⟨48 + n, acc, rfl, by omega, by omega⟩
    · rw [if_neg hn]
      exact ih (n / 10) ((48 + n % 10) :: acc) (Or.inr ⟨48 + n % 10, acc, rfl, by omega, by omega⟩)

/-- The decimal text of an integer starts with a digit or with `-`. -/
theorem formatInt_head (i : Int) :
    ∃ d t, formatInt i = d :: t ∧ ((48 ≤ d ∧ d ≤ 57) ∨ d = 45) := by
  cases i with
  | ofNat n =>
    obtain ⟨d, t, h, h1, h2⟩ := formatNatAux_head (n + 1) n [] (Or.inl (by omega))
    exact ⟨d, t, h, Or.inl ⟨h1, h2⟩⟩
  | negSucc n => exact ⟨45, formatNat (n + 1), rfl, Or.inr rfl⟩

/-- C5. When the response has a status outside [200, 300) and its body does not
decode as JSON, with the failure `e`, the error `doRequest` returns, and so the
error of Create, Fetch, List and Delete once their request is built, is
non-nil; its message is `Error unmarshaling response error: ` followed by the
text of `e`, which differs from every message of the server-rejected form; an
empty body is such a body. -/
theorem C5_decode_failure_is_surfaced (env : Env) (c : Client) (req : Request)
    (resp : Response) (e : LibError) (ht : env.transport req = Except.ok resp)
    (hs : resp.StatusCode < 200 ∨ resp.StatusCode ≥ 300)
    (hp : jsonUnmarshalAny env resp.Body = Except.error e) :
    (∀ (τ : Type) (um : Env → JValue → τ → τ × Option LibError) (v : τ),
      (doRequest env um req v).err = some (GoError.errorf
        (ascii "Error unmarshaling response error: " ++ env.errText e)))
    ∧ (∀ a, newRequest env (ascii "POST") (c.baseURL ++ ascii "/v1/organisation/accounts")
        (some ⟨a⟩) = Except.ok req →
      Create env c a = ⟨Outcome.returned none (some (GoError.errorf
        (ascii "Error unmarshaling response error: " ++ env.errText e))), [req]⟩)
    ∧ (∀ id, newRequest env (ascii "GET")
        (c.baseURL ++ ascii "/v1/organisation/accounts/" ++ id) none = Except.ok req →
      Fetch env c id = ⟨Outcome.returned none (some (GoError.errorf
        (ascii "Error unmarshaling response error: " ++ env.errText e))), [req]⟩)
    ∧ (∀ n q, newRequest env (ascii "GET")
        (c.baseURL ++ ascii "/v1/organisation/accounts?page[size]=" ++ formatInt n
          ++ ascii "&page[number]=" ++ formatInt q) none = Except.ok req →
      List_ env c n q = ⟨Outcome.returned none (some (GoError.errorf
        (ascii "Error unmarshaling response error: " ++ env.errText e))), [req]⟩)
    ∧ (∀ a : Account, newRequest env (ascii "DELETE")
        (c.baseURL ++ ascii "/v1/organisation/accounts/" ++ a.ID
          ++ ascii "?version=" ++ formatInt a.Version) none = Except.ok req →
      Delete env c (some a) = ⟨Outcome.returned () (some (GoError.errorf
        (ascii "Error unmarshaling response error: " ++ env.errText e))), [req]⟩)
    ∧ (∀ (status : Int) (payload : Bytes),
      ascii "Error unmarshaling response error: " ++ env.errText e
        ≠ formatInt status ++ ascii " Error: " ++ payload)
    ∧ jsonUnmarshalAny env [] = Except.error (LibError.syntaxErr []) := by
  have key : ∀ (τ : Type) (um : Env → JValue → τ → τ × Option LibError) (v : τ),
      (doRequest env um req v).err = some (GoError.errorf
        (ascii "Error unmarshaling response error: " ++ env.errText e)) := by
    intro τ um v
    rw [doRequest_non2xx env um req v resp ht hs, hp]
  refine ⟨key, ?_, ?_, ?_, ?_, ?_, rfl⟩
  · intro a h
    exact Create_of_err env c a req _ h (key _ _ _)
  · intro id h
    exact Fetch_of_err env c id req _ h (key _ _ _)
  · intro n q h
    exact List_of_err env c n q req _ h (key _ _ _)
  · intro a h
    rw [Delete_of_built env c a req h, key]
  · intro status payload heq
    obtain ⟨d, t, hd, hrange⟩ := formatInt_head status
    rw [hd] at heq
    have h0 : ascii "Error unmarshaling response error: "
        = 69 :: ascii "rror unmarshaling response error: " := by decide
    rw [h0] at heq
    simp only [List.cons_append, List.cons.injEq] at heq
    omega

/-- The response of the worked example for C5: status 500 with an empty body. -/
theorem C5_decode_failure_is_surfaced_witness :
    (sampleEnv ⟨500, []⟩).transport
        ⟨ascii "GET", ascii "http://localhost:8080/v1/organisation/accounts/x", []⟩
      = Except.ok ⟨500, []⟩
    ∧ Fetch (sampleEnv ⟨500, []⟩) sampleClient (ascii "x")
      = ⟨Outcome.returned none (some (GoError.errorf
          (ascii "Error unmarshaling response error: unexpected end of JSON input"))),
        [⟨ascii "GET", ascii "http://localhost:8080/v1/organisation/accounts/x", []⟩]⟩ :=
  ⟨rfl, (C5_decode_failure_is_surfaced (sampleEnv ⟨500, []⟩) sampleClient
    ⟨ascii "GET", ascii "http://localhost:8080/v1/organisation/accounts/x", []⟩
    ⟨500, []⟩ (LibError.syntaxErr []) rfl (by decide) rfl).2.2.1 (ascii "x") rfl⟩

/-- `Decode` on a body that holds no value reports `io.EOF` and leaves the target as it was. -/
theorem Decode_blank {τ : Type} (env : Env) (um : Env → JValue → τ → τ × Option LibError)
    (body : Bytes) (v : τ) (h : (skipSpace body).isEmpty = true) :
    Decode env um body v = (v, some LibError.eof) := by
  unfold Decode
  rw [if_pos h]

/-- `Decode` into the nil target of `Delete` fails, and not with `io.EOF`, on
every body that holds something other than whitespace. -/
theorem Decode_nil_not_blank (env : Env) (body : Bytes)
    (h : (skipSpace body).isEmpty = false) :
    ∃ e, (Decode env unmarshalNil body ()).2 = some e ∧ e ≠ LibError.eof := by
  unfold Decode
  rw [if_neg (by simp [h])]
  cases scanValue body with
  | none => exact ⟨LibError.syntaxErr body, rfl, by intro hc; cases hc⟩
  | some r => exact ⟨LibError.invalidUnmarshal, rfl, by intro hc; cases hc⟩

/-- C6. For every response with a status in [200, 300) and an empty body,
`doRequest` returns a nil error and leaves the caller's result value as it
was; Delete, once its request is built, returns success. -/
theorem C6_empty_success_body (env : Env) (c : Client) (req : Request) (resp : Response)
    (ht : env.transport req = Except.ok resp)
    (hs : 200 ≤ resp.StatusCode ∧ resp.StatusCode < 300) (hb : resp.Body = []) :
    (∀ (τ : Type) (um : Env → JValue → τ → τ × Option LibError) (v : τ),
      (doRequest env um req v).err = none ∧ (doRequest env um req v).v = v)
    ∧ (∀ a : Account, newRequest env (ascii "DELETE")
        (c.baseURL ++ ascii "/v1/organisation/accounts/" ++ a.ID
          ++ ascii "?version=" ++ formatInt a.Version) none = Except.ok req →
      Delete env c (some a) = ⟨Outcome.returned () none, [req]⟩) := by
  have key : ∀ (τ : Type) (um : Env → JValue → τ → τ × Option LibError) (v : τ),
      (doRequest env um req v).err = none ∧ (doRequest env um req v).v = v := by
    intro τ um v
    have h2 := doRequest_2xx env um req v resp ht hs
    rw [hb, Decode_blank env um [] v rfl] at h2
    simpa using h2
  refine ⟨key, ?_⟩
  intro a h
  rw [Delete_of_built env c a req h, (key Unit unmarshalNil ()).1]

/-- The response of the worked example for C6: status 204 with an empty body. -/
theorem C6_empty_success_body_witness :
    (sampleEnv ⟨204, []⟩).transport
        ⟨ascii "DELETE", ascii "http://localhost:8080/v1/organisation/accounts/?version=0", []⟩
      = Except.ok ⟨204, []⟩
    ∧ Delete (sampleEnv ⟨204, []⟩) sampleClient (some Account.zero)
      = ⟨Outcome.returned () none,
        [⟨ascii "DELETE", ascii "http://localhost:8080/v1/organisation/accounts/?version=0", []⟩]⟩ :=
  ⟨rfl, (C6_empty_success_body (sampleEnv ⟨204, []⟩) sampleClient
    ⟨ascii "DELETE", ascii "http://localhost:8080/v1/organisation/accounts/?version=0", []⟩
    ⟨204, []⟩ rfl (by decide) rfl).2 Account.zero rfl⟩

/-- C10, refuted as stated: for the response with status 200 and body `{}`,
Delete returns the error `json: Unmarshal(nil)`. -/
theorem C10_counterexample :
    (Delete (sampleEnv ⟨200, ascii "\x7b\x7d"⟩) sampleClient (some Account.zero)).outcome
      = Outcome.returned () (some (GoError.lib LibError.invalidUnmarshal)) := by
  decide

/-- C10, amended. For every response with a status in [200, 300), Delete, once
its request is built, returns no error exactly when the body holds nothing but
JSON whitespace (an empty body included); for any other body it returns an
error. -/
theorem C10_delete_success_iff_blank_body (env : Env) (c : Client) (a : Account)
    (req : Request) (resp : Response)
    (hreq : newRequest env (ascii "DELETE")
      (c.baseURL ++ ascii "/v1/organisation/accounts/" ++ a.ID
        ++ ascii "?version=" ++ formatInt a.Version) none = Except.ok req)
    (ht : env.transport req = Except.ok resp)
    (hs : 200 ≤ resp.StatusCode ∧ resp.StatusCode < 300) :
    ((skipSpace resp.Body).isEmpty = true →
      Delete env c (some a) = ⟨Outcome.returned () none, [req]⟩)
    ∧ ((skipSpace resp.Body).isEmpty = false →
      ∃ e, Delete env c (some a) = ⟨Outcome.returned () (some e), [req]⟩) := by
  have h2 := (doRequest_2xx env unmarshalNil req () resp ht hs).1
  rw [Delete_of_built env c a req hreq]
  constructor
  · intro hblank
    rw [Decode_blank env unmarshalNil resp.Body () hblank] at h2
    rw [h2]
    simp
  · intro hnb
    obtain ⟨e, he, hne⟩ := Decode_nil_not_blank env resp.Body hnb
    rw [he] at h2
    rw [h2]
    simp [hne]

/-- The responses of the worked example for C10: status 204 with a body of
two spaces succeeds, status 200 with body `{}` fails. -/
theorem C10_delete_success_iff_blank_body_witness :
    Delete (sampleEnv ⟨204, [32, 32]⟩) sampleClient (some Account.zero)
      = ⟨Outcome.returned () none,
        [⟨ascii "DELETE", ascii "http://localhost:8080/v1/organisation/accounts/?version=0", []⟩]⟩
    ∧ ∃ e, Delete (sampleEnv ⟨200, ascii "\x7b\x7d"⟩) sampleClient (some Account.zero)
      = ⟨Outcome.returned () (some e),
        [⟨ascii "DELETE", ascii "http://localhost:8080/v1/organisation/accounts/?version=0", []⟩]⟩ :=
  ⟨(C10_delete_success_iff_blank_body (sampleEnv ⟨204, [32, 32]⟩) sampleClient Account.zero
      ⟨ascii "DELETE", ascii "http://localhost:8080/v1/organisation/accounts/?version=0", []⟩
      ⟨204, [32, 32]⟩ rfl rfl (by decide)).1 rfl,
    (C10_delete_success_iff_blank_body (sampleEnv ⟨200, ascii "\x7b\x7d"⟩) sampleClient Account.zero
      ⟨ascii "DELETE", ascii "http://localhost:8080/v1/organisation/accounts/?version=0", []⟩
      ⟨200, ascii "\x7b\x7d"⟩ rfl rfl (by decide)).2 rfl⟩

/-- C7, refuted as stated: for the response with status 200 and body `{}`,
Fetch returns a nil account together with a nil error. -/
theorem C7_counterexample :
    (Fetch (sampleEnv ⟨200, ascii "\x7b\x7d"⟩) sampleClient (ascii "x")).outcome
      = Outcome.returned none none := by
  decide

/-- C7, amended. Every outcome of Create has exactly one of the account and the
error non-nil. Every outcome of Fetch that returns has the account nil when
the error is non-nil: Fetch returns an error with a nil account, or no error
with the `data` pointer of the decoded envelope, which may be nil. -/
theorem C7_account_xor_error (env : Env) (c : Client) :
    (∀ a, (∃ e, (Create env c a).outcome = Outcome.returned none (some e))
      ∨ (∃ acc, (Create env c a).outcome = Outcome.returned (some acc) none))
    ∧ (∀ id, (Fetch env c id).outcome = Outcome.panicked
      ∨ (∃ e, (Fetch env c id).outcome = Outcome.returned none (some e))
      ∨ (∃ v, (Fetch env c id).outcome = Outcome.returned v none)) := by
  constructor
  · intro a
    cases h : newRequest env (ascii "POST") (c.baseURL ++ ascii "/v1/organisation/accounts")
        (some ⟨a⟩) with
    | error e =>
      left
      refine ⟨e, ?_⟩
      unfold Create
      simp only [h]
    | ok req =>
      cases he : (doRequest env unmarshalBody req ⟨⟨some Account.zero⟩, Account.zero, true⟩).err with
      | some e =>
        left
        exact ⟨e, by rw [Create_of_err env c a req e h he]⟩
      | none =>
        right
        exact ⟨_, by rw [Create_of_ok env c a req h he]⟩
  · intro id
    cases h : newRequest env (ascii "GET")
        (c.baseURL ++ ascii "/v1/organisation/accounts/" ++ id) none with
    | error e =>
      right; left
      refine ⟨e, ?_⟩
      unfold Fetch
      simp only [h]
    | ok req =>
      cases he : (doRequest env unmarshalBodyPtr req none).err with
      | some e =>
        right; left
        exact ⟨e, by rw [Fetch_of_err env c id req e h he]⟩
      | none =>
        rw [Fetch_of_ok env c id req h he]
        cases (doRequest env unmarshalBodyPtr req none).v with
        | none => left; rfl
        | some b => right; right; exact ⟨b.Account2, rfl⟩

/-- C8, refuted as stated: Fetch of the id made of one line feed cannot build
its request (`url.Parse` rejects the control byte) and hands nothing to the
transport. -/
theorem C8_counterexample :
    (Fetch (sampleEnv ⟨200, []⟩) sampleClient [10]).calls = [] := by
  decide

/-- C8, amended. With any input and any transport behaviour, each of Create,
Fetch, Delete and List hands at most one request to the transport, never more:
exactly the one request it built when the request could be built; and when the
request cannot be built (the body does not serialise or `http.NewRequest`
fails) the operation hands nothing to the transport and returns the
construction error, with no value; Delete of a nil account panics before any
round trip. -/
theorem C8_at_most_one_round_trip (env : Env) (c : Client) :
    (∀ a e, newRequest env (ascii "POST") (c.baseURL ++ ascii "/v1/organisation/accounts")
        (some ⟨a⟩) = Except.error e →
      Create env c a = ⟨Outcome.returned none (some e), []⟩)
    ∧ (∀ a req, newRequest env (ascii "POST") (c.baseURL ++ ascii "/v1/organisation/accounts")
        (some ⟨a⟩) = Except.ok req →
      (Create env c a).calls = [req])
    ∧ (∀ id e, newRequest env (ascii "GET")
        (c.baseURL ++ ascii "/v1/organisation/accounts/" ++ id) none = Except.error e →
      Fetch env c id = ⟨Outcome.returned none (some e), []⟩)
    ∧ (∀ id req, newRequest env (ascii "GET")
        (c.baseURL ++ ascii "/v1/organisation/accounts/" ++ id) none = Except.ok req →
      (Fetch env c id).calls = [req])
    ∧ (∀ (a : Account) e, newRequest env (ascii "DELETE")
        (c.baseURL ++ ascii "/v1/organisation/accounts/" ++ a.ID
          ++ ascii "?version=" ++ formatInt a.Version) none = Except.error e →
      Delete env c (some a) = ⟨Outcome.returned () (some e), []⟩)
    ∧ (∀ (a : Account) req, newRequest env (ascii "DELETE")
        (c.baseURL ++ ascii "/v1/organisation/accounts/" ++ a.ID
          ++ ascii "?version=" ++ formatInt a.Version) none = Except.ok req →
      (Delete env c (some a)).calls = [req])
    ∧ Delete env c none = ⟨Outcome.panicked, []⟩
    ∧ (∀ n p e, newRequest env (ascii "GET")
        (c.baseURL ++ ascii "/v1/organisation/accounts?page[size]=" ++ formatInt n
          ++ ascii "&page[number]=" ++ formatInt p) none = Except.error e →
      List_ env c n p = ⟨Outcome.returned none (some e), []⟩)
    ∧ (∀ n p req, newRequest env (ascii "GET")
        (c.baseURL ++ ascii "/v1/organisation/accounts?page[size]=" ++ formatInt n
          ++ ascii "&page[number]=" ++ formatInt p) none = Except.ok req →
      (List_ env c n p).calls = [req])
    ∧ (∀ a, (Create env c a).calls.length ≤ 1)
    ∧ (∀ id, (Fetch env c id).calls.length ≤ 1)
    ∧ (∀ a, (Delete env c a).calls.length ≤ 1)
    ∧ (∀ n p, (List_ env c n p).calls.length ≤ 1) := by
  refine ⟨?_, ?_, ?_, ?_, ?_, ?_, rfl, ?_, ?_, ?_, ?_, ?_, ?_⟩
  · intro a e h
    unfold Create
    simp only [h]
  · intro a req h
    rw [Create_calls, h]
  · intro id e h
    unfold Fetch
    simp only [h]
  · intro id req h
    rw [Fetch_calls, h]
  · intro a e h
    unfold Delete
    simp only [h]
  · intro a req h
    rw [Delete_calls, h]
  · intro n p e h
    unfold List_
    simp only [h]
  · intro n p req h
    rw [List_calls, h]
  · intro a
    rw [Create_calls]
    split <;> simp
  · intro id
    rw [Fetch_calls]
    split <;> simp
  · intro a
    cases a with
    | none => exact Nat.zero_le 1
    | some a =>
      rw [Delete_calls]
      split <;> simp
  · intro n p
    rw [List_calls]
    split <;> simp

/-- C8, amended, on worked examples: Fetch of the id made of one line feed
cannot build its request, returns the error of `http.NewRequest` and makes no
round trip; Fetch of the id `x` builds its request and hands it over once. -/
theorem C8_at_most_one_round_trip_witness :
    (newRequest (sampleEnv ⟨200, goodBody⟩) (ascii "GET")
        (ascii "http://localhost:8080/v1/organisation/accounts/" ++ [10]) none
      = Except.error (GoError.lib (LibError.newRequest (ascii "GET")
          (ascii "http://localhost:8080/v1/organisation/accounts/" ++ [10])))
    ∧ Fetch (sampleEnv ⟨200, goodBody⟩) sampleClient [10]
      = ⟨Outcome.returned none (some (GoError.lib (LibError.newRequest (ascii "GET")
          (ascii "http://localhost:8080/v1/organisation/accounts/" ++ [10])))), []⟩)
    ∧ (newRequest (sampleEnv ⟨200, goodBody⟩) (ascii "GET")
        (ascii "http://localhost:8080/v1/organisation/accounts/x") none
      = Except.ok ⟨ascii "GET", ascii "http://localhost:8080/v1/organisation/accounts/x", []⟩
    ∧ (Fetch (sampleEnv ⟨200, goodBody⟩) sampleClient (ascii "x")).calls
      = [⟨ascii "GET", ascii "http://localhost:8080/v1/organisation/accounts/x", []⟩]) :=
  ⟨⟨rfl, (C8_at_most_one_round_trip (sampleEnv ⟨200, goodBody⟩) sampleClient).2.2.1 [10]
      (GoError.lib (LibError.newRequest (ascii "GET")
        (ascii "http://localhost:8080/v1/organisation/accounts/" ++ [10]))) rfl⟩,
   ⟨rfl, (C8_at_most_one_round_trip (sampleEnv ⟨200, goodBody⟩) sampleClient).2.2.2.1 (ascii "x")
      ⟨ascii "GET", ascii "http://localhost:8080/v1/organisation/accounts/x", []⟩ rfl⟩⟩

/-- C9, the code at the failing inputs: for a response with status 200 whose
body is empty or is the literal `null`, Fetch and List dereference the nil
envelope pointer and panic. -/
theorem C9_nil_envelope_panics :
    (Fetch (sampleEnv ⟨200, []⟩) sampleClient (ascii "x")).outcome = Outcome.panicked
    ∧ (Fetch (sampleEnv ⟨200, ascii "null"⟩) sampleClient (ascii "x")).outcome = Outcome.panicked
    ∧ (List_ (sampleEnv ⟨200, []⟩) sampleClient 1 0).outcome = Outcome.panicked
    ∧ (List_ (sampleEnv ⟨200, ascii "null"⟩) sampleClient 1 0).outcome = Outcome.panicked := by
  decide

/-! ## The round trip of an account through its JSON text -/

/-- A valid leading rune is re-encoded to the very bytes it was decoded from. -/
theorem decodeRune_valid (s0 : Nat) (t : Bytes)
    (h : ¬ ((decodeRune (s0 :: t)).1 = RuneError ∧ (decodeRune (s0 :: t)).2 = 1)) :
    ∃ pre post, s0 :: t = pre ++ post ∧ pre.length = (decodeRune (s0 :: t)).2
      ∧ encodeRune (decodeRune (s0 :: t)).1 = pre
      ∧ 1 ≤ pre.length
      ∧ (0x80 ≤ s0 → ∀ b ∈ pre, 0x80 ≤ b)
      ∧ (∀ y, decodeRune (pre ++ y) = decodeRune (s0 :: t)) := by
  unfold decodeRune at h ⊢
  by_cases h1 : s0 < 0x80
  · simp only [h1, if_true] at h ⊢
    refine ⟨[s0], t, rfl, rfl, ?_, by simp, ?_, ?_⟩
    · simp [encodeRune, h1]
    · intro h2; omega
    · intro y
      simp [decodeRune, h1]
  · simp only [h1, if_false] at h ⊢
    by_cases h2 : s0 < 0xC2 ∨ 0xF4 < s0
    · simp [h2, RuneError] at h
    · simp only [h2, if_false] at h ⊢
      cases t with
      | nil => simp [RuneError] at h
      | cons s1 t1 =>
        dsimp only at h ⊢
        by_cases h3 : s1 < (if s0 = 0xE0 then 0xA0 else if s0 = 0xF0 then 0x90 else 0x80)
            ∨ (if s0 = 0xED then 0x9F else if s0 = 0xF4 then 0x8F else 0xBF) < s1
        · simp [h3, RuneError] at h
        · simp only [h3, if_false] at h ⊢
          by_cases h4 : s0 < 0xE0
          · simp only [h4, if_true] at h ⊢
            refine ⟨[s0, s1], t1, rfl, rfl, ?_, by simp, ?_, ?_⟩
            rotate_right
            · intro y
              simp [decodeRune, h1, h2, h3, h4]
            · unfold encodeRune
              split_ifs at h3 <;> split_ifs <;> simp <;> omega
            · intro _ b hb
              simp only [List.mem_cons, List.mem_singleton, List.not_mem_nil, or_false] at hb
              split_ifs at h3 <;> omega
          · simp only [h4, if_false] at h ⊢
            cases t1 with
            | nil => simp [RuneError] at h
            | cons s2 t2 =>
              dsimp only at h ⊢
              by_cases h5 : s2 < 0x80 ∨ 0xBF < s2
              · simp [h5, RuneError] at h
              · simp only [h5, if_false] at h ⊢
                by_cases h6 : s0 < 0xF0
                · simp only [h6, if_true] at h ⊢
                  refine ⟨[s0, s1, s2], t2, rfl, rfl, ?_, by simp, ?_, ?_⟩
                  rotate_right
                  · intro y
                    simp [decodeRune, h1, h2, h3, h4, h5, h6]
                  · unfold encodeRune
                    split_ifs at h3 <;> split_ifs <;> simp <;> omega
                  · intro _ b hb
                    simp only [List.mem_cons, List.mem_singleton, List.not_mem_nil, or_false] at hb
                    split_ifs at h3 <;> omega
                · simp only [h6, if_false] at h ⊢
                  cases t2 with
                  | nil => simp [RuneError] at h
                  | cons s3 t3 =>
                    dsimp only at h ⊢
                    by_cases h7 : s3 < 0x80 ∨ 0xBF < s3
                    · simp [h7, RuneError] at h
                    · simp only [h7, if_false] at h ⊢
                      have hs1 : 0x80 ≤ s1 ∧ s1 ≤ 0xBF ∧ (s0 = 0xF0 → 0x90 ≤ s1)
                          ∧ (s0 = 0xF4 → s1 ≤ 0x8F) := by
                        split_ifs at h3 <;> omega
                      have hr1 : ¬ (s0 % 8 * 262144 + s1 % 64 * 4096 + s2 % 64 * 64 + s3 % 64
                          < 0x80) := by omega
                      have hr2 : ¬ (s0 % 8 * 262144 + s1 % 64 * 4096 + s2 % 64 * 64 + s3 % 64
                          < 0x800) := by omega
                      have hr3 : ¬ (0x10FFFF < s0 % 8 * 262144 + s1 % 64 * 4096 + s2 % 64 * 64
                          + s3 % 64 ∨ (0xD800 ≤ s0 % 8 * 262144 + s1 % 64 * 4096 + s2 % 64 * 64
                          + s3 % 64 ∧ s0 % 8 * 262144 + s1 % 64 * 4096 + s2 % 64 * 64 + s3 % 64
                          ≤ 0xDFFF)) := by omega
                      have hr4 : ¬ (s0 % 8 * 262144 + s1 % 64 * 4096 + s2 % 64 * 64 + s3 % 64
                          < 0x10000) := by omega
                      have e0 : 0xF0 + (s0 % 8 * 262144 + s1 % 64 * 4096 + s2 % 64 * 64
                          + s3 % 64) / 262144 = s0 := by omega
                      have e1 : 0x80 + (s0 % 8 * 262144 + s1 % 64 * 4096 + s2 % 64 * 64
                          + s3 % 64) / 4096 % 64 = s1 := by omega
                      have e2 : 0x80 + (s0 % 8 * 262144 + s1 % 64 * 4096 + s2 % 64 * 64
                          + s3 % 64) / 64 % 64 = s2 := by omega
                      have e3 : 0x80 + (s0 % 8 * 262144 + s1 % 64 * 4096 + s2 % 64 * 64
                          + s3 % 64) % 64 = s3 := by omega
                      refine ⟨[s0, s1, s2, s3], t3, rfl, rfl, ?_, by simp, ?_, ?_⟩
                      rotate_right
                      · intro y
                        simp [decodeRune, h1, h2, h3, h4, h5, h6, h7]
                      · unfold encodeRune
                        rw [if_neg hr1, if_neg hr2, if_neg hr3, if_neg hr4, e0, e1, e2, e3]
                      · intro _ b hb
                        simp only [List.mem_cons, List.mem_singleton, List.not_mem_nil,
                          or_false] at hb
                        omega

/-- One step of the scanner over a byte that needs no escape. -/
theorem scanString_plain (b : Nat) (x : Bytes) (h1 : b ≠ 34) (h2 : b ≠ 92) (h3 : ¬ b < 0x20) :
    scanString (b :: x) = (scanString x).map (fun p => (b :: p.1, p.2)) := by
  rw [scanString.eq_def]
  simp only [h1, h2, h3, if_false]

/-- The scanner passes over well-formed non-ASCII bytes of a string literal. -/
theorem scanString_high (pre x : Bytes) (h : ∀ b ∈ pre, 0x80 ≤ b) :
    scanString (pre ++ x) = (scanString x).map (fun p => (pre ++ p.1, p.2)) := by
  induction pre with
  | nil => simp
  | cons b t ih =>
    have hb : 0x80 ≤ b := h b (List.mem_cons_self b t)
    have ht : ∀ c ∈ t, 0x80 ≤ c := fun c hc => h c (List.mem_cons_of_mem b hc)
    rw [List.cons_append, scanString_plain b _ (by omega) (by omega) (by omega), ih ht]
    cases scanString x <;> simp

/-- A hexadecimal digit written by the encoder is read back by the scanner. -/
theorem hexVal_hexDigit (d : Nat) (h : d < 16) : hexVal (hexDigit d) = some d := by
  unfold hexDigit hexVal
  split_ifs <;> first | omega | (congr 1; omega)

/-- One step of the scanner over a two-byte escape. -/
theorem scanString_esc (e : Nat) (x : Bytes)
    (he : e = 98 ∨ e = 102 ∨ e = 110 ∨ e = 114 ∨ e = 116 ∨ e = 92 ∨ e = 47 ∨ e = 34) :
    scanString (92 :: e :: x) = (scanString x).map (fun p => (92 :: e :: p.1, p.2)) := by
  rw [scanString.eq_def]
  have h117 : e ≠ 117 := by omega
  simp only [h117, he, if_true, if_false]
  simp

/-- One step of the scanner over a six-byte escape. -/
theorem scanString_u (h1 h2 h3 h4 : Nat) (x : Bytes)
    (e1 : (hexVal h1).isSome) (e2 : (hexVal h2).isSome) (e3 : (hexVal h3).isSome)
    (e4 : (hexVal h4).isSome) :
    scanString (92 :: 117 :: h1 :: h2 :: h3 :: h4 :: x)
      = (scanString x).map (fun p => (92 :: 117 :: h1 :: h2 :: h3 :: h4 :: p.1, p.2)) := by
  rw [scanString.eq_def]
  simp [e1, e2, e3, e4]

/-- The scanner passes over the bytes the encoder writes for one ASCII byte. -/
theorem scanString_escapeByte (b : Nat) (x : Bytes) (hb : b < 0x80) :
    scanString (escapeByte b ++ x) = (scanString x).map (fun p => (escapeByte b ++ p.1, p.2)) := by
  unfold escapeByte
  by_cases h1 : b = 34 ∨ b = 92
  · rw [if_pos h1]
    exact scanString_esc b x (by omega)
  · rw [if_neg h1]
    by_cases h2 : b = 10
    · rw [if_pos h2]; exact scanString_esc 110 x (by omega)
    · rw [if_neg h2]
      by_cases h3 : b = 13
      · rw [if_pos h3]; exact scanString_esc 114 x (by omega)
      · rw [if_neg h3]
        by_cases h4 : b = 9
        · rw [if_pos h4]; exact scanString_esc 116 x (by omega)
        · rw [if_neg h4]
          by_cases h5 : b < 0x20 ∨ b = 60 ∨ b = 62 ∨ b = 38
          · rw [if_pos h5]
            have e1 := hexVal_hexDigit (b / 16) (by omega)
            have e2 := hexVal_hexDigit (b % 16) (by omega)
            exact scanString_u 48 48 _ _ x (by decide) (by decide) (by simp [e1]) (by simp [e2])
          · rw [if_neg h5]
            exact scanString_plain b x (by omega) (by omega) (by omega)

/-- One step of `encodeStringAux`. -/
theorem encodeStringAux_cons (f b : Nat) (t : Bytes) :
    encodeStringAux (f + 1) (b :: t) =
      if b < 0x80 then escapeByte b ++ encodeStringAux f t
      else if (decodeRune (b :: t)).1 = RuneError ∧ (decodeRune (b :: t)).2 = 1 then
        ascii "\\ufffd" ++ encodeStringAux f t
      else if (decodeRune (b :: t)).1 = 0x2028 ∨ (decodeRune (b :: t)).1 = 0x2029 then
        ascii "\\u202" ++ [hexDigit ((decodeRune (b :: t)).1 % 16)]
          ++ encodeStringAux f ((b :: t).drop (decodeRune (b :: t)).2)
      else (b :: t).take (decodeRune (b :: t)).2
        ++ encodeStringAux f ((b :: t).drop (decodeRune (b :: t)).2) := by
  rfl

/-- One step of `validUTF8`. -/
theorem validUTF8_cons (f b : Nat) (t : Bytes) :
    validUTF8 (f + 1) (b :: t) =
      if (decodeRune (b :: t)).1 = RuneError ∧ (decodeRune (b :: t)).2 = 1 then false
      else validUTF8 f ((b :: t).drop (decodeRune (b :: t)).2) := by
  rfl

/-- The leading rune of a valid string: its bytes, the rest, and what is known of them. -/
theorem validUTF8_step (f b : Nat) (t : Bytes) (hv : validUTF8 (f + 1) (b :: t) = true) :
    ¬ ((decodeRune (b :: t)).1 = RuneError ∧ (decodeRune (b :: t)).2 = 1)
    ∧ ∃ pre post, b :: t = pre ++ post
      ∧ (b :: t).take (decodeRune (b :: t)).2 = pre
      ∧ (b :: t).drop (decodeRune (b :: t)).2 = post
      ∧ validUTF8 f post = true
      ∧ encodeRune (decodeRune (b :: t)).1 = pre
      ∧ 1 ≤ pre.length
      ∧ (0x80 ≤ b → ∀ c ∈ pre, 0x80 ≤ c)
      ∧ (∀ y, decodeRune (pre ++ y) = decodeRune (b :: t))
      ∧ pre.length = (decodeRune (b :: t)).2 := by
  rw [validUTF8_cons] at hv
  by_cases hbad : (decodeRune (b :: t)).1 = RuneError ∧ (decodeRune (b :: t)).2 = 1
  · rw [if_pos hbad] at hv
    cases hv
  · rw [if_neg hbad] at hv
    obtain ⟨pre, post, hsplit, hlen, henc, hpos, hhigh, hpref⟩ := decodeRune_valid b t hbad
    refine ⟨hbad, pre, post, hsplit, ?_, ?_, ?_, henc, hpos, hhigh, hpref, hlen⟩
    · rw [← hlen, hsplit]; simp
    · rw [← hlen, hsplit]; simp
    · have : (b :: t).drop (decodeRune (b :: t)).2 = post := by rw [← hlen, hsplit]; simp
      rw [this] at hv
      exact hv

/-- The scanner reads the encoding of a valid string up to its closing quote. -/
theorem scanString_encode (f : Nat) (s rest : Bytes) (hv : validUTF8 f s = true) :
    scanString (encodeStringAux f s ++ 34 :: rest) = some (encodeStringAux f s, rest) := by
  induction f generalizing s with
  | zero =>
    have : encodeStringAux 0 s = [] := rfl
    rw [this, List.nil_append, scanString.eq_def]
    simp
  | succ f ih =>
    cases s with
    | nil =>
      have : encodeStringAux (f + 1) [] = [] := rfl
      rw [this, List.nil_append, scanString.eq_def]
      simp
    | cons b t =>
      obtain ⟨hbad, pre, post, hsplit, htake, hdrop, hvp, henc, hpos, hhigh, hpref, hplen⟩ :=
        validUTF8_step f b t hv
      rw [encodeStringAux_cons]
      by_cases hb : b < 0x80
      · rw [if_pos hb]
        have hd : decodeRune (b :: t) = (b, 1) := by simp [decodeRune, hb]
        have hpost : post = t := by rw [← hdrop, hd]; rfl
        rw [hpost] at hvp
        rw [List.append_assoc, scanString_escapeByte b _ hb, ih t hvp]
        rfl
      · rw [if_neg hb, if_neg hbad, htake, hdrop]
        by_cases hls : (decodeRune (b :: t)).1 = 0x2028 ∨ (decodeRune (b :: t)).1 = 0x2029
        · rw [if_pos hls]
          have e : hexVal (hexDigit ((decodeRune (b :: t)).1 % 16)) = some
              ((decodeRune (b :: t)).1 % 16) := hexVal_hexDigit _ (by omega)
          have h5 : ascii "\\u202" = [92, 117, 50, 48, 50] := by decide
          rw [h5]
          simp only [List.cons_append, List.nil_append, List.append_assoc]
          rw [scanString_u 50 48 50 _ _ (by decide) (by decide) (by decide) (by simp [e]),
            ih post hvp]
          rfl
        · rw [if_neg hls, List.append_assoc, scanString_high pre _ (hhigh (by omega)),
            ih post hvp]
          rfl

/-- Unquoting nothing gives nothing. -/
theorem unquoteAux_nil (k : Nat) : unquoteAux k [] = some [] := by
  cases k <;> rfl

/-- One step of unquoting over an ASCII byte that is not escaped. -/
theorem unquoteAux_plain (k c : Nat) (x : Bytes) (h1 : c ≠ 92) (h2 : c ≠ 34)
    (h3 : ¬ c < 0x20) (h4 : c < 0x80) :
    unquoteAux (k + 1) (c :: x) = (unquoteAux k x).map (fun t => c :: t) := by
  rw [unquoteAux.eq_def]
  simp only [h1, h2, h3, h4, if_false, if_true, or_self]

/-- One step of unquoting over a leading non-ASCII byte. -/
theorem unquoteAux_high (k c : Nat) (x : Bytes) (h : 0x80 ≤ c) :
    unquoteAux (k + 1) (c :: x) = (unquoteAux k ((c :: x).drop (decodeRune (c :: x)).2)).map
      (fun t => encodeRune (decodeRune (c :: x)).1 ++ t) := by
  rw [unquoteAux.eq_def]
  have h1 : c ≠ 92 := by omega
  have h2 : ¬ (c = 34 ∨ c < 0x20) := by omega
  have h4 : ¬ c < 0x80 := by omega
  simp only [h1, h2, h4, if_false]

/-- One step of unquoting over a six-byte escape of a rune that is not a surrogate. -/
theorem unquoteAux_u (k a b c d rr : Nat) (x : Bytes)
    (hg : getu4 (92 :: 117 :: a :: b :: c :: d :: x) = some rr)
    (hs : ¬ (0xD800 ≤ rr ∧ rr < 0xE000)) :
    unquoteAux (k + 1) (92 :: 117 :: a :: b :: c :: d :: x)
      = (unquoteAux k x).map (fun t => encodeRune rr ++ t) := by
  rw [unquoteAux.eq_def]
  simp [hg, hs]

/-- What `getu4` reads from a written escape. -/
theorem getu4_written (a b c d va vb vc vd : Nat) (x : Bytes) (ha : hexVal a = some va)
    (hb : hexVal b = some vb) (hc : hexVal c = some vc) (hd : hexVal d = some vd) :
    getu4 (92 :: 117 :: a :: b :: c :: d :: x) = some (va * 4096 + vb * 256 + vc * 16 + vd) := by
  simp [getu4, ha, hb, hc, hd]

/-- Unquoting undoes the escape the encoder writes for one ASCII byte. -/
theorem unquoteAux_escapeByte (k b : Nat) (x : Bytes) (hb : b < 0x80) :
    unquoteAux (k + 1) (escapeByte b ++ x) = (unquoteAux k x).map (fun t => b :: t) := by
  unfold escapeByte
  by_cases h1 : b = 34 ∨ b = 92
  · rw [if_pos h1]
    rcases h1 with h | h <;> subst h <;> rw [List.cons_append, unquoteAux.eq_def] <;> simp
  · rw [if_neg h1]
    by_cases h2 : b = 10
    · rw [if_pos h2]; subst h2; rw [List.cons_append, unquoteAux.eq_def]; simp
    · rw [if_neg h2]
      by_cases h3 : b = 13
      · rw [if_pos h3]; subst h3; rw [List.cons_append, unquoteAux.eq_def]; simp
      · rw [if_neg h3]
        by_cases h4 : b = 9
        · rw [if_pos h4]; subst h4; rw [List.cons_append, unquoteAux.eq_def]; simp
        · rw [if_neg h4]
          by_cases h5 : b < 0x20 ∨ b = 60 ∨ b = 62 ∨ b = 38
          · rw [if_pos h5]
            have e1 := hexVal_hexDigit (b / 16) (by omega)
            have e2 := hexVal_hexDigit (b % 16) (by omega)
            have e0 : hexVal 48 = some 0 := by decide
            have hg := getu4_written 48 48 (hexDigit (b / 16)) (hexDigit (b % 16)) 0 0 _ _ x
              e0 e0 e1 e2
            have hval : 0 * 4096 + 0 * 256 + b / 16 * 16 + b % 16 = b := by omega
            rw [hval] at hg
            simp only [List.cons_append, List.nil_append]
            rw [unquoteAux_u k _ _ _ _ b x hg (by omega)]
            have : encodeRune b = [b] := by simp [encodeRune, hb]
            rw [this]
            rfl
          · rw [if_neg h5]
            exact unquoteAux_plain k b x (by omega) (by omega) (by omega) hb

/-- Unquoting undoes the encoding of a valid string. -/
theorem unquoteAux_encode (f : Nat) (s : Bytes) (k : Nat) (hv : validUTF8 f s = true)
    (hk : (encodeStringAux f s).length ≤ k) :
    unquoteAux k (encodeStringAux f s) = some s := by
  induction f generalizing s k with
  | zero =>
    have hs : s = [] := by
      cases s with
      | nil => rfl
      | cons b t => cases hv
    subst hs
    exact unquoteAux_nil k
  | succ f ih =>
    cases s with
    | nil => exact unquoteAux_nil k
    | cons b t =>
      obtain ⟨hbad, pre, post, hsplit, htake, hdrop, hvp, henc, hpos, hhigh, hpref, hplen⟩ :=
        validUTF8_step f b t hv
      rw [encodeStringAux_cons] at hk ⊢
      by_cases hb : b < 0x80
      · rw [if_pos hb] at hk ⊢
        have hd : decodeRune (b :: t) = (b, 1) := by simp [decodeRune, hb]
        have hpost : post = t := by rw [← hdrop, hd]; rfl
        rw [hpost] at hvp
        have hlen : 1 ≤ (escapeByte b).length := by
          unfold escapeByte; split_ifs <;> simp
        rw [List.length_append] at hk
        obtain ⟨k', rfl⟩ : ∃ k', k = k' + 1 := ⟨k - 1, by omega⟩
        rw [unquoteAux_escapeByte k' b _ hb, ih t k' hvp (by omega)]
        rfl
      · rw [if_neg hb, if_neg hbad, htake, hdrop] at hk ⊢
        by_cases hls : (decodeRune (b :: t)).1 = 0x2028 ∨ (decodeRune (b :: t)).1 = 0x2029
        · rw [if_pos hls] at hk ⊢
          have e : hexVal (hexDigit ((decodeRune (b :: t)).1 % 16)) = some
              ((decodeRune (b :: t)).1 % 16) := hexVal_hexDigit _ (by omega)
          have h5 : ascii "\\u202" = [92, 117, 50, 48, 50] := by decide
          rw [h5] at hk ⊢
          simp only [List.cons_append, List.nil_append, List.append_assoc, List.length_cons]
            at hk ⊢
          obtain ⟨k', rfl⟩ : ∃ k', k = k' + 1 := ⟨k - 1, by omega⟩
          have hg := getu4_written 50 48 50 (hexDigit ((decodeRune (b :: t)).1 % 16)) 2 0 2 _
            (encodeStringAux f post) (by decide) (by decide) (by decide) e
          have hval : 2 * 4096 + 0 * 256 + 2 * 16 + (decodeRune (b :: t)).1 % 16
              = (decodeRune (b :: t)).1 := by omega
          rw [hval] at hg
          rw [unquoteAux_u k' _ _ _ _ _ _ hg (by omega), ih post k' hvp (by omega), henc,
            hsplit]
          rfl
        · rw [if_neg hls] at hk ⊢
          have hne : pre ≠ [] := by
            intro h0; rw [h0] at hpos; simp at hpos
          obtain ⟨c, pt, hpre⟩ : ∃ c pt, pre = c :: pt := by
            cases pre with
            | nil => exact absurd rfl hne
            | cons c pt => exact ⟨c, pt, rfl⟩
          have hc : 0x80 ≤ c := hhigh (by omega) c (by rw [hpre]; exact List.mem_cons_self c pt)
          rw [List.length_append] at hk
          obtain ⟨k', rfl⟩ : ∃ k', k = k' + 1 := ⟨k - 1, by omega⟩
          have hdec := hpref (encodeStringAux f post)
          rw [hpre, List.cons_append] at hdec
          have hlen2 : (decodeRune (b :: t)).2 = (c :: pt).length := by
            rw [← hpre, hplen]
          rw [hpre, List.cons_append, unquoteAux_high k' c _ hc, hdec, hlen2]
          have hdrop2 : List.drop (c :: pt).length (c :: (pt ++ encodeStringAux f post))
              = encodeStringAux f post := by
            rw [← List.cons_append]; simp
          rw [hdrop2, ih post k' hvp (by omega), henc, hsplit, hpre]
          rfl

/-- The value of digits followed by more digits. -/
theorem digitsValue_append (ds r : Bytes) (k : Nat) (h : ∀ d ∈ ds, isDigit d = true) :
    digitsValue (ds ++ r) k = (digitsValue ds k).bind (fun m => digitsValue r m) := by
  induction ds generalizing k with
  | nil => rfl
  | cons d t ih =>
    have hd : isDigit d = true := h d (List.mem_cons_self d t)
    have ht : ∀ c ∈ t, isDigit c = true := fun c hc => h c (List.mem_cons_of_mem d hc)
    simp only [List.cons_append, digitsValue, hd, if_true]
    exact ih _ ht

/-- What `formatNatAux` writes: digits in front of the accumulator, without a
leading zero, whose value is the number. -/
theorem formatNatAux_spec (f n : Nat) (acc : Bytes) (h : n < 10 ^ f) :
    ∃ ds, formatNatAux f n acc = ds ++ acc ∧ (∀ d ∈ ds, isDigit d = true)
      ∧ (∀ k, digitsValue ds k = some (k * 10 ^ ds.length + n))
      ∧ (0 < f → ∃ d0 t, ds = d0 :: t ∧ (d0 = 48 → t = [] ∧ n = 0)) := by
  induction f generalizing n acc with
  | zero =>
    have hn : n = 0 := by simpa using h
    subst hn
    exact ⟨[], rfl, by simp, by intro k; simp [digitsValue], by intro h0; omega⟩
  | succ f ih =>
    unfold formatNatAux
    by_cases hn : n < 10
    · rw [if_pos hn]
      refine ⟨[48 + n], rfl, ?_, ?_, ?_⟩
      · intro d hd
        simp only [List.mem_singleton] at hd
        subst hd
        simp [isDigit]; omega
      · intro k
        have : isDigit (48 + n) = true := by simp [isDigit]; omega
        simp [digitsValue, this]
      · intro _
        exact ⟨48 + n, [], rfl, by intro h0; exact ⟨rfl, by omega⟩⟩
    · rw [if_neg hn]
      have hdiv : n / 10 < 10 ^ f := by
        rw [pow_succ] at h
        omega
      obtain ⟨ds1, h1, h2, h3, h4⟩ := ih (n / 10) ((48 + n % 10) :: acc) hdiv
      have hdig : isDigit (48 + n % 10) = true := by simp [isDigit]; omega
      refine ⟨ds1 ++ [48 + n % 10], ?_, ?_, ?_, ?_⟩
      · rw [h1]; simp
      · intro d hd
        rcases List.mem_append.mp hd with hd | hd
        · exact h2 d hd
        · simp only [List.mem_singleton] at hd
          subst hd
          exact hdig
      · intro k
        rw [digitsValue_append ds1 _ k h2, h3 k]
        simp only [Option.some_bind, digitsValue, hdig, if_true, List.length_append,
          List.length_singleton, pow_succ]
        congr 1
        have := Nat.div_add_mod n 10
        have e : 48 + n % 10 - 48 = n % 10 := by omega
        rw [e]
        ring_nf
        omega
      · intro _
        have hf : 0 < f := by
          by_contra hf0
          have : f = 0 := by omega
          subst this
          simp at hdiv
          omega
        obtain ⟨d0, t, hd0, h0⟩ := h4 hf
        refine ⟨d0, t ++ [48 + n % 10], by rw [hd0]; rfl, ?_⟩
        intro hz
        have := (h0 hz).2
        omega

/-- What `formatNat` writes. -/
theorem formatNat_spec (n : Nat) :
    ∃ d0 t, formatNat n = d0 :: t ∧ (∀ d ∈ d0 :: t, isDigit d = true)
      ∧ digitsValue (d0 :: t) 0 = some n ∧ (d0 = 48 → t = []) := by
  have hlt : n < 10 ^ (n + 1) := by
    calc n < 10 ^ n := Nat.lt_pow_self (by norm_num) n
      _ ≤ 10 ^ (n + 1) := Nat.pow_le_pow_right (by norm_num) (Nat.le_succ n)
  obtain ⟨ds, h1, h2, h3, h4⟩ := formatNatAux_spec (n + 1) n [] hlt
  obtain ⟨d0, t, hd, h0⟩ := h4 (by omega)
  subst hd
  refine ⟨d0, t, by unfold formatNat; rw [h1]; simp, h2, ?_, fun hz => (h0 hz).1⟩
  rw [h3 0]; simp

/-- `takeDigits` takes a run of digits that ends before a byte that is not a digit. -/
theorem takeDigits_run (ds rest : Bytes) (h : ∀ d ∈ ds, isDigit d = true)
    (hr : ∀ c r, rest = c :: r → isDigit c = false) :
    takeDigits (ds ++ rest) = (ds, rest) := by
  induction ds with
  | nil =>
    cases rest with
    | nil => rfl
    | cons c r =>
      have := hr c r rfl
      simp [takeDigits, this]
  | cons d t ih =>
    have hd : isDigit d = true := h d (List.mem_cons_self d t)
    have ht : ∀ c ∈ t, isDigit c = true := fun c hc => h c (List.mem_cons_of_mem d hc)
    simp [takeDigits, hd, ih ht]

/-- The scanner reads the decimal text of an integer up to a following `,`, `}` or `]`. -/
theorem scanNumber_formatInt (v : Int) (c : Nat) (r : Bytes) (hc : c = 44 ∨ c = 125 ∨ c = 93) :
    scanNumber (formatInt v ++ c :: r) = some (formatInt v, c :: r)
    ∧ ∃ d0 t, formatInt v = d0 :: t ∧ (d0 = 45 ∨ isDigit d0 = true) := by
  have hnd : ∀ c' r', c :: r = c' :: r' → isDigit c' = false := by
    intro c' r' h
    injection h with h1 h2
    subst h1
    simp [isDigit]; omega
  have key : ∀ n, scanUnsigned (formatNat n ++ c :: r) = some (formatNat n, c :: r) := by
    intro n
    obtain ⟨d0, t, hf, hdig, _, hz⟩ := formatNat_spec n
    rw [hf]
    have hd0 : isDigit d0 = true := hdig d0 (List.mem_cons_self d0 t)
    have ht : ∀ x ∈ t, isDigit x = true := fun x hx => hdig x (List.mem_cons_of_mem d0 hx)
    have hd0' : 48 ≤ d0 ∧ d0 ≤ 57 := by simpa [isDigit] using hd0
    have hint : scanIntPart (d0 :: t ++ c :: r) = some (d0 :: t, c :: r) := by
      simp only [List.cons_append, scanIntPart]
      by_cases h48 : d0 = 48
      · rw [if_pos h48, hz h48, h48]; rfl
      · rw [if_neg h48, if_pos (by omega), takeDigits_run t (c :: r) ht hnd]
    have hfr : scanFraction (c :: r) = some ([], c :: r) := by
      simp only [scanFraction]
      rw [if_neg (by omega)]
    have hex : scanExponent (c :: r) = some ([], c :: r) := by
      simp only [scanExponent]
      rw [if_neg (by omega)]
    simp only [scanUnsigned, hint, hfr, hex, List.append_nil]
  cases v with
  | ofNat n =>
    obtain ⟨d0, t, hf, hdig, _, _⟩ := formatNat_spec n
    have hd0 : isDigit d0 = true := hdig d0 (List.mem_cons_self d0 t)
    have hd0' : 48 ≤ d0 ∧ d0 ≤ 57 := by simpa [isDigit] using hd0
    refine ⟨?_, d0, t, hf, Or.inr hd0⟩
    show scanNumber (formatNat n ++ c :: r) = some (formatNat n, c :: r)
    have := key n
    rw [hf] at this ⊢
    simp only [List.cons_append, scanNumber]
    rw [if_neg (by omega)]
    exact this
  | negSucc n =>
    refine ⟨?_, 45, formatNat (n + 1), rfl, Or.inl rfl⟩
    show scanNumber (45 :: formatNat (n + 1) ++ c :: r) = some (45 :: formatNat (n + 1), c :: r)
    simp only [List.cons_append, scanNumber, if_true, key (n + 1)]
    rfl

/-- `strconv.ParseInt` reads back the decimal text of a 64-bit integer. -/
theorem parseInt64_formatInt (v : Int) (h1 : -(2 : Int) ^ 63 ≤ v) (h2 : v < (2 : Int) ^ 63) :
    parseInt64 (formatInt v) = some v := by
  cases v with
  | ofNat n =>
    obtain ⟨d0, t, hf, hdig, hval, _⟩ := formatNat_spec n
    have hd0 : isDigit d0 = true := hdig d0 (List.mem_cons_self d0 t)
    have hd0' : 48 ≤ d0 ∧ d0 ≤ 57 := by simpa [isDigit] using hd0
    show parseInt64 (formatNat n) = some (Int.ofNat n)
    rw [hf]
    simp only [parseInt64]
    rw [if_neg (by omega), hval]
    have hn : n < 2 ^ 63 := by
      have : (n : Int) < (2 : Int) ^ 63 := h2
      exact_mod_cast this
    simp only [hn, if_true]
    rfl
  | negSucc n =>
    obtain ⟨d0, t, hf, hdig, hval, _⟩ := formatNat_spec (n + 1)
    show parseInt64 (45 :: formatNat (n + 1)) = some (Int.negSucc n)
    rw [hf]
    simp only [parseInt64, if_true, hval]
    have hn : n + 1 ≤ 2 ^ 63 := by
      have : -(2 : Int) ^ 63 ≤ Int.negSucc n := h1
      rw [Int.negSucc_eq] at this
      have h3 : ((n : Int) + 1) ≤ (2 : Int) ^ 63 := by linarith
      exact_mod_cast h3
    simp only [hn, if_true]
    rw [Int.negSucc_eq]
    push_cast
    rfl

/-- Whitespace skipping stops at a byte that is not whitespace. -/
theorem skipSpace_cons (c : Nat) (x : Bytes) (h : isSpace c = false) :
    skipSpace (c :: x) = c :: x := by
  simp [skipSpace, h]

/-- The scanner reads a quoted text as a string value. -/
theorem parseValue_quoted (f : Nat) (raw rest : Bytes)
    (h : scanString (raw ++ 34 :: rest) = some (raw, rest)) :
    parseValue (f + 1) ([34] ++ raw ++ [34] ++ rest) = some (JValue.string raw, rest) := by
  have e : [34] ++ raw ++ [34] ++ rest = 34 :: (raw ++ 34 :: rest) := by simp
  rw [e, parseValue, skipSpace_cons 34 _ (by decide)]
  simp [h]

/-- The scanner reads a plain text up to the closing quote. -/
theorem scanString_plainText (raw rest : Bytes) (h : plainText raw = true) :
    scanString (raw ++ 34 :: rest) = some (raw, rest) := by
  induction raw with
  | nil => rw [List.nil_append, scanString.eq_def]; simp
  | cons c t ih =>
    simp only [plainText, List.all_cons, Bool.and_eq_true, decide_eq_true_eq] at h
    have ht : plainText t = true := by
      simp only [plainText]
      exact h.2
    rw [List.cons_append, scanString_plain c _ (by omega) (by omega) (by omega), ih ht]
    rfl

/-- More fuel does not change what is scanned. -/
theorem ParsesTo_mono (text : Bytes) (v : JValue) (n m : Nat) (h : ParsesTo text v n)
    (hnm : n ≤ m) : ParsesTo text v m :=
  fun f hf c r hc => h f (le_trans hnm hf) c r hc

/-- A string is written as a literal the scanner reads back. -/
theorem ParsesTo_encodeString (s : Bytes) (hv : ValidString s = true) :
    ParsesTo (encodeString s) (stringValue s) 1 := by
  intro f hf c r _
  obtain ⟨f', rfl⟩ : ∃ f', f = f' + 1 := ⟨f - 1, by omega⟩
  unfold encodeString stringValue
  exact parseValue_quoted f' _ _ (scanString_encode s.length s _ hv)

/-- A quoted plain text is read back as a string value. -/
theorem ParsesTo_plainText (raw : Bytes) (h : plainText raw = true) :
    ParsesTo ([34] ++ raw ++ [34]) (JValue.string raw) 1 := by
  intro f hf c r _
  obtain ⟨f', rfl⟩ : ∃ f', f = f' + 1 := ⟨f - 1, by omega⟩
  exact parseValue_quoted f' _ _ (scanString_plainText raw _ h)

/-- A boolean is written as a literal the scanner reads back. -/
theorem ParsesTo_marshalBool (b : Bool) : ParsesTo (marshalBool b) (JValue.bool b) 1 := by
  intro f hf c r _
  obtain ⟨f', rfl⟩ : ∃ f', f = f' + 1 := ⟨f - 1, by omega⟩
  cases b
  · have e : marshalBool false ++ c :: r = 102 :: 97 :: 108 :: 115 :: 101 :: c :: r := rfl
    rw [e, parseValue, skipSpace_cons 102 _ (by decide)]
    rfl
  · have e : marshalBool true ++ c :: r = 116 :: 114 :: 117 :: 101 :: c :: r := rfl
    rw [e, parseValue, skipSpace_cons 116 _ (by decide)]
    rfl

/-- The literal `null` is read back as the null value. -/
theorem ParsesTo_null : ParsesTo (ascii "null") JValue.null 1 := by
  intro f hf c r _
  obtain ⟨f', rfl⟩ : ∃ f', f = f' + 1 := ⟨f - 1, by omega⟩
  have e : ascii "null" ++ c :: r = 110 :: 117 :: 108 :: 108 :: c :: r := rfl
  rw [e, parseValue, skipSpace_cons 110 _ (by decide)]
  rfl

/-- An integer is written as a literal the scanner reads back. -/
theorem ParsesTo_formatInt (v : Int) : ParsesTo (formatInt v) (JValue.number (formatInt v)) 1 := by
  intro f hf c r hc
  obtain ⟨f', rfl⟩ : ∃ f', f = f' + 1 := ⟨f - 1, by omega⟩
  obtain ⟨hscan, d0, t, hd, hd0⟩ := scanNumber_formatInt v c r hc
  have hsp : isSpace d0 = false := by
    rcases hd0 with h | h
    · subst h; decide
    · simp only [isDigit, Bool.and_eq_true, decide_eq_true_eq] at h
      simp [isSpace]; omega
  have hnum : (d0 = 45 ∨ isDigit d0 = true) := hd0
  have h123 : d0 ≠ 123 ∧ d0 ≠ 91 ∧ d0 ≠ 34 := by
    rcases hd0 with h | h
    · subst h; decide
    · simp only [isDigit, Bool.and_eq_true, decide_eq_true_eq] at h
      omega
  rw [parseValue]
  rw [hd] at hscan ⊢
  rw [List.cons_append, skipSpace_cons d0 _ hsp]
  simp only [h123.1, h123.2.1, h123.2.2, if_false, hnum, if_true]
  rw [List.cons_append] at hscan
  rw [hscan]
  rfl

/-- A non-empty list of strings is written starting with a quote. -/
theorem marshalStrings_head (l : List Bytes) (hl : l ≠ []) :
    ∃ t, marshalStrings l = 34 :: t := by
  cases l with
  | nil => exact absurd rfl hl
  | cons x t =>
    cases t with
    | nil => exact ⟨_, rfl⟩
    | cons y u => exact ⟨_, rfl⟩

/-- The scanner reads the elements of a written string slice. -/
theorem parseElems_marshalStrings (l : List Bytes) (hl : l ≠ [])
    (hv : ∀ s ∈ l, ValidString s = true) (f : Nat) (hf : l.length + 1 ≤ f) (rest : Bytes) :
    parseElems f (marshalStrings l ++ 93 :: rest) = some (stringValues l, rest) := by
  induction l generalizing f with
  | nil => exact absurd rfl hl
  | cons x t ih =>
    obtain ⟨f', rfl⟩ : ∃ f', f = f' + 1 := ⟨f - 1, by omega⟩
    have hx : ValidString x = true := hv x (List.mem_cons_self x t)
    have ht : ∀ s ∈ t, ValidString s = true := fun s hs => hv s (List.mem_cons_of_mem x hs)
    cases t with
    | nil =>
      have hp := ParsesTo_encodeString x hx f' (by simp at hf; omega) 93 rest (by omega)
      show parseElems (f' + 1) (encodeString x ++ 93 :: rest) = _
      rw [parseElems, hp]
      simp only [skipSpace_cons 93 rest (by decide)]
      rfl
    | cons y u =>
      have hlen : (y :: u).length + 1 ≤ f' := by
        simp only [List.length_cons] at hf ⊢
        omega
      have hp := ParsesTo_encodeString x hx f' (by omega) 44
        (marshalStrings (y :: u) ++ 93 :: rest) (by omega)
      have e : marshalStrings (x :: y :: u) ++ 93 :: rest
          = encodeString x ++ 44 :: (marshalStrings (y :: u) ++ 93 :: rest) := by
        simp [marshalStrings]
      rw [e, parseElems, hp]
      simp only [skipSpace_cons 44 _ (by decide), if_true]
      rw [ih (by simp) ht f' hlen]
      rfl

/-- A string slice is written as text the scanner reads back. -/
theorem ParsesTo_marshalStringSlice (l : List Bytes) (hv : ∀ s ∈ l, ValidString s = true) :
    ParsesTo (marshalStringSlice (some l)) (JValue.array (stringValues l)) (l.length + 2) := by
  intro f hf c r _
  obtain ⟨f', rfl⟩ : ∃ f', f = f' + 1 := ⟨f - 1, by omega⟩
  by_cases hl : l = []
  · subst hl
    have e : marshalStringSlice (some []) ++ c :: r = 91 :: 93 :: c :: r := rfl
    rw [e, parseValue, skipSpace_cons 91 _ (by decide)]
    simp only [skipSpace_cons 93 _ (by decide)]
    rfl
  · obtain ⟨t, ht⟩ := marshalStrings_head l hl
    have hp := parseElems_marshalStrings l hl hv f' (by omega) (c :: r)
    have e : marshalStringSlice (some l) ++ c :: r = 91 :: (marshalStrings l ++ 93 :: c :: r) := by
      simp [marshalStringSlice]
    rw [e, parseValue, skipSpace_cons 91 _ (by decide)]
    rw [ht] at hp ⊢
    rw [List.cons_append] at hp ⊢
    simp only [skipSpace_cons 34 _ (by decide)]
    rw [hp]
    rfl

/-- Written fields start with a quote. -/
theorem writeFields_head (fields : List (Bytes × Bytes)) (hne : fields ≠ []) :
    ∃ t, writeFields fields = 34 :: t := by
  cases fields with
  | nil => exact absurd rfl hne
  | cons x t =>
    obtain ⟨k, v⟩ := x
    cases t with
    | nil => exact ⟨_, rfl⟩
    | cons y u => exact ⟨_, rfl⟩

/-- The scanner reads the members of a written object. -/
theorem parseMembers_writeFields (fields : List (Bytes × Bytes)) (vals : List JValue) (n : Nat)
    (h : List.Forall₂ (fun fld v => plainText fld.1 = true ∧ ParsesTo fld.2 v n) fields vals)
    (hne : fields ≠ []) (f : Nat) (hf : n + fields.length ≤ f) (rest : Bytes) :
    parseMembers f (writeFields fields ++ 125 :: rest)
      = some (memberValues fields vals, rest) := by
  induction h generalizing f with
  | nil => exact absurd rfl hne
  | @cons fld v fs vs hfld hrest ih =>
    obtain ⟨k, text⟩ := fld
    obtain ⟨hk, hp⟩ := hfld
    obtain ⟨f', rfl⟩ : ∃ f', f = f' + 1 := ⟨f - 1, by simp at hf; omega⟩
    cases hrest with
    | nil =>
      have e : writeFields [(k, text)] ++ 125 :: rest
          = 34 :: (k ++ 34 :: 58 :: (text ++ 125 :: rest)) := by
        simp [writeFields]
      have hv := hp f' (by simp at hf; omega) 125 rest (by omega)
      rw [e, parseMembers, skipSpace_cons 34 _ (by decide)]
      simp only [if_true, scanString_plainText k _ hk, skipSpace_cons 58 _ (by decide), hv,
        skipSpace_cons 125 _ (by decide)]
      rfl
    | @cons fld2 v2 fs2 vs2 hfld2 hrest2 =>
      have e : writeFields ((k, text) :: fld2 :: fs2) ++ 125 :: rest
          = 34 :: (k ++ 34 :: 58 :: (text ++ 44 :: (writeFields (fld2 :: fs2) ++ 125 :: rest))) := by
        obtain ⟨k2, t2⟩ := fld2
        simp [writeFields]
      have hv := hp f' (by simp at hf; omega) 44 (writeFields (fld2 :: fs2) ++ 125 :: rest)
        (by omega)
      have hlen : n + (fld2 :: fs2).length ≤ f' := by
        simp only [List.length_cons] at hf ⊢
        omega
      rw [e, parseMembers, skipSpace_cons 34 _ (by decide)]
      simp only [if_true, scanString_plainText k _ hk, skipSpace_cons 58 _ (by decide), hv,
        skipSpace_cons 44 _ (by decide)]
      rw [ih (by simp) f' hlen]
      rfl

/-- The scanner reads a written object, whatever follows it. -/
theorem parseValue_writeObject (fields : List (Bytes × Bytes)) (vals : List JValue) (n : Nat)
    (h : List.Forall₂ (fun fld v => plainText fld.1 = true ∧ ParsesTo fld.2 v n) fields vals)
    (hne : fields ≠ []) (f : Nat) (hf : n + fields.length + 1 ≤ f) (rest : Bytes) :
    parseValue f (writeObject fields ++ rest)
      = some (JValue.object (memberValues fields vals), rest) := by
  obtain ⟨f', rfl⟩ : ∃ f', f = f' + 1 := ⟨f - 1, by omega⟩
  obtain ⟨t, ht⟩ := writeFields_head fields hne
  have hp := parseMembers_writeFields fields vals n h hne f' (by omega) rest
  have e : writeObject fields ++ rest = 123 :: (writeFields fields ++ 125 :: rest) := by
    simp [writeObject]
  rw [e, parseValue, skipSpace_cons 123 _ (by decide)]
  rw [ht] at hp ⊢
  rw [List.cons_append] at hp ⊢
  simp only [if_true, skipSpace_cons 34 _ (by decide)]
  rw [hp]
  rfl

/-- A written object is text the scanner reads back. -/
theorem ParsesTo_writeObject (fields : List (Bytes × Bytes)) (vals : List JValue) (n : Nat)
    (h : List.Forall₂ (fun fld v => plainText fld.1 = true ∧ ParsesTo fld.2 v n) fields vals)
    (hne : fields ≠ []) :
    ParsesTo (writeObject fields) (JValue.object (memberValues fields vals))
      (n + fields.length + 1) :=
  fun f hf c r _ => parseValue_writeObject fields vals n h hne f hf (c :: r)

/-- Decoding the literal written for a valid string gives the string back. -/
theorem decodeString_encoded (s old : Bytes) (sv : Saved) (hv : ValidString s = true) :
    decodeString (stringValue s) old sv = (s, sv) := by
  have h : unquote (encodeStringAux s.length s) = some s :=
    unquoteAux_encode s.length s _ hv (le_refl _)
  simp only [stringValue, decodeString, h]

/-- Decoding the literals written for valid strings gives the strings back. -/
theorem decodeStringElems_encoded (l old : List Bytes) (sv : Saved)
    (hv : ∀ s ∈ l, ValidString s = true) :
    decodeStringElems (stringValues l) old sv = (l, sv) := by
  induction l generalizing old with
  | nil => rfl
  | cons x t ih =>
    have hx : ValidString x = true := hv x (List.mem_cons_self x t)
    have ht : ∀ s ∈ t, ValidString s = true := fun s hs => hv s (List.mem_cons_of_mem x hs)
    simp only [stringValues, List.map_cons, decodeStringElems, decodeString_encoded x _ sv hx]
    have := ih old.tail ht
    simp only [stringValues] at this
    rw [this]

/-- Decoding the text written for an integer of 64 bits gives the integer back. -/
theorem decodeInt_formatInt (v old : Int) (sv : Saved) (h1 : -(2 : Int) ^ 63 ≤ v)
    (h2 : v < (2 : Int) ^ 63) :
    decodeInt (JValue.number (formatInt v)) old sv = (v, sv) := by
  simp only [decodeInt, parseInt64_formatInt v h1 h2]

/-- A string slice, nil or not, is written as text the scanner reads back. -/
theorem ParsesTo_slice (o : Option (List Bytes)) (hv : ∀ s ∈ o.getD [], ValidString s = true) :
    ParsesTo (marshalStringSlice o) (sliceValue o) ((o.getD []).length + 2) := by
  cases o with
  | none => exact ParsesTo_mono _ _ 1 _ ParsesTo_null (by simp)
  | some l => exact ParsesTo_marshalStringSlice l hv

/-- Decoding the text written for a string slice gives the slice back. -/
theorem decodeStringSlice_written (o old : Option (List Bytes)) (sv : Saved)
    (hv : ∀ s ∈ o.getD [], ValidString s = true) :
    decodeStringSlice (sliceValue o) old sv = (o, sv) := by
  cases o with
  | none => rfl
  | some l =>
    simp only [sliceValue, decodeStringSlice, decodeStringElems_encoded l _ sv hv]

/-- Storing fifteen members named after the fields of `Attributes`, in order. -/
theorem decodeAttributesMembers_fields
    (v1 v2 v3 v4 v5 v6 v7 v8 v9 v10 v11 v12 v13 v14 v15 : JValue) (a : Attributes) (sv : Saved) :
    decodeAttributesMembers
      [(ascii "account_classification", v1), (ascii "account_matching_opt_out", v2),
       (ascii "account_number", v3), (ascii "alternative_bank_account_names", v4),
       (ascii "bank_account_name", v5), (ascii "bank_id", v6), (ascii "bank_id_code", v7),
       (ascii "base_currency", v8), (ascii "bic", v9), (ascii "country", v10),
       (ascii "first_name", v11), (ascii "iban", v12), (ascii "joint_account", v13),
       (ascii "secondary_identification", v14), (ascii "title", v15)] a sv =
    (let r1 := decodeString v1 a.AccountClassification sv
     let r2 := decodeBool v2 a.AccountMatchingOptOut r1.2
     let r3 := decodeString v3 a.AccountNumber r2.2
     let r4 := decodeStringSlice v4 a.AlternativeBankAccountNames r3.2
     let r5 := decodeString v5 a.BankAccountName r4.2
     let r6 := decodeString v6 a.BankID r5.2
     let r7 := decodeString v7 a.BankIDCode r6.2
     let r8 := decodeString v8 a.BaseCurrency r7.2
     let r9 := decodeString v9 a.Bic r8.2
     let r10 := decodeString v10 a.Country r9.2
     let r11 := decodeString v11 a.FirstName r10.2
     let r12 := decodeString v12 a.Iban r11.2
     let r13 := decodeBool v13 a.JointAccount r12.2
     let r14 := decodeString v14 a.SecondaryIdentification r13.2
     let r15 := decodeString v15 a.Title r14.2
     (⟨r1.1, r2.1, r3.1, r4.1, r5.1, r6.1, r7.1, r8.1, r9.1, r10.1, r11.1, r12.1, r13.1,
       r14.1, r15.1⟩, r15.2)) := by
  rfl

/-- The parts of `Attributes.validStrings`. -/
theorem attributes_validStrings_parts (a : Attributes) (h : a.validStrings = true) :
    ValidString a.AccountClassification = true ∧ ValidString a.AccountNumber = true
    ∧ (∀ s ∈ a.AlternativeBankAccountNames.getD [], ValidString s = true)
    ∧ ValidString a.BankAccountName = true ∧ ValidString a.BankID = true
    ∧ ValidString a.BankIDCode = true ∧ ValidString a.BaseCurrency = true
    ∧ ValidString a.Bic = true ∧ ValidString a.Country = true
    ∧ ValidString a.FirstName = true ∧ ValidString a.Iban = true
    ∧ ValidString a.SecondaryIdentification = true ∧ ValidString a.Title = true := by
  simp only [Attributes.validStrings, Bool.and_eq_true, List.all_eq_true] at h
  tauto

/-- The text written for an `Attributes` with valid strings is scanned as `attributesValue`. -/
theorem ParsesTo_marshalAttributes (a : Attributes) (h : a.validStrings = true) :
    ParsesTo (marshalAttributes a) (attributesValue a)
      ((a.AlternativeBankAccountNames.getD []).length + 18) := by
  obtain ⟨h1, h3, h4, h5, h6, h7, h8, h9, h10, h11, h12, h14, h15⟩ :=
    attributes_validStrings_parts a h
  have hs : ∀ s, ValidString s = true → ParsesTo (encodeString s) (stringValue s)
      ((a.AlternativeBankAccountNames.getD []).length + 2) := fun s hs =>
    ParsesTo_mono _ _ 1 _ (ParsesTo_encodeString s hs) (by omega)
  have hb : ∀ b, ParsesTo (marshalBool b) (JValue.bool b)
      ((a.AlternativeBankAccountNames.getD []).length + 2) := fun b =>
    ParsesTo_mono _ _ 1 _ (ParsesTo_marshalBool b) (by omega)
  have hall : List.Forall₂ (fun fld v => plainText fld.1 = true ∧ ParsesTo fld.2 v
      ((a.AlternativeBankAccountNames.getD []).length + 2))
      (attributeFields a) (attributeValues a) := by
    unfold attributeFields attributeValues
    refine List.Forall₂.cons ⟨rfl, hs _ h1⟩ (List.Forall₂.cons ⟨rfl, hb _⟩
      (List.Forall₂.cons ⟨rfl, hs _ h3⟩
      (List.Forall₂.cons ⟨rfl, ParsesTo_slice _ h4⟩
      (List.Forall₂.cons ⟨rfl, hs _ h5⟩ (List.Forall₂.cons ⟨rfl, hs _ h6⟩
      (List.Forall₂.cons ⟨rfl, hs _ h7⟩ (List.Forall₂.cons ⟨rfl, hs _ h8⟩
      (List.Forall₂.cons ⟨rfl, hs _ h9⟩ (List.Forall₂.cons ⟨rfl, hs _ h10⟩
      (List.Forall₂.cons ⟨rfl, hs _ h11⟩ (List.Forall₂.cons ⟨rfl, hs _ h12⟩
      (List.Forall₂.cons ⟨rfl, hb _⟩ (List.Forall₂.cons ⟨rfl, hs _ h14⟩
      (List.Forall₂.cons ⟨rfl, hs _ h15⟩ List.Forall₂.nil))))))))))))))
  have := ParsesTo_writeObject (attributeFields a) (attributeValues a) _ hall
    (by unfold attributeFields; simp)
  have hlen : (attributeFields a).length = 15 := rfl
  rw [hlen] at this
  exact this

/-- Decoding what the scanner delimits in the text written for an
`Attributes` with valid strings gives the `Attributes` back. -/
theorem decodeAttributes_written (a old : Attributes) (sv : Saved) (h : a.validStrings = true) :
    decodeAttributes (attributesValue a) old sv = (a, sv) := by
  obtain ⟨h1, h3, h4, h5, h6, h7, h8, h9, h10, h11, h12, h14, h15⟩ :=
    attributes_validStrings_parts a h
  show decodeAttributesMembers (memberValues (attributeFields a) (attributeValues a)) old sv = _
  have e : memberValues (attributeFields a) (attributeValues a) =
      [(ascii "account_classification", stringValue a.AccountClassification),
       (ascii "account_matching_opt_out", JValue.bool a.AccountMatchingOptOut),
       (ascii "account_number", stringValue a.AccountNumber),
       (ascii "alternative_bank_account_names", sliceValue a.AlternativeBankAccountNames),
       (ascii "bank_account_name", stringValue a.BankAccountName),
       (ascii "bank_id", stringValue a.BankID), (ascii "bank_id_code", stringValue a.BankIDCode),
       (ascii "base_currency", stringValue a.BaseCurrency), (ascii "bic", stringValue a.Bic),
       (ascii "country", stringValue a.Country), (ascii "first_name", stringValue a.FirstName),
       (ascii "iban", stringValue a.Iban), (ascii "joint_account", JValue.bool a.JointAccount),
       (ascii "secondary_identification", stringValue a.SecondaryIdentification),
       (ascii "title", stringValue a.Title)] := rfl
  rw [e, decodeAttributesMembers_fields]
  simp only [decodeString_encoded _ _ _ h1, decodeString_encoded _ _ _ h3,
    decodeString_encoded _ _ _ h5, decodeString_encoded _ _ _ h6, decodeString_encoded _ _ _ h7,
    decodeString_encoded _ _ _ h8, decodeString_encoded _ _ _ h9, decodeString_encoded _ _ _ h10,
    decodeString_encoded _ _ _ h11, decodeString_encoded _ _ _ h12,
    decodeString_encoded _ _ _ h14, decodeString_encoded _ _ _ h15,
    decodeStringSlice_written _ _ _ h4, decodeBool]

/-- HTML escaping leaves a plain text as it is. -/
theorem escapeHTMLAux_plainText (f : Nat) (raw : Bytes) (h : plainText raw = true)
    (hf : raw.length ≤ f) : escapeHTMLAux f raw = raw := by
  induction raw generalizing f with
  | nil => cases f <;> rfl
  | cons c t ih =>
    obtain ⟨f', rfl⟩ : ∃ f', f = f' + 1 := ⟨f - 1, by simp at hf; omega⟩
    simp only [plainText, List.all_cons, Bool.and_eq_true, decide_eq_true_eq] at h
    have ht : plainText t = true := by
      simp only [plainText]
      exact h.2
    have hlen : t.length ≤ f' := by simp at hf; omega
    rw [escapeHTMLAux]
    rw [if_neg (by omega), if_neg (by omega), if_neg (by omega), ih f' ht hlen]

/-- What `json.Marshal` writes for a time whose `MarshalJSON` gives a quoted plain text. -/
theorem marshalTime_plain (env : Env) (t : Time) (raw : Bytes) (hp : plainText raw = true)
    (hm : env.timeMarshalJSON t = Except.ok ([34] ++ raw ++ [34])) :
    marshalTime env t = Except.ok ([34] ++ raw ++ [34]) := by
  have hscan : scanValue ([34] ++ raw ++ [34]) = some (JValue.string raw, []) := by
    unfold scanValue
    have := parseValue_quoted (2 * ([34] ++ raw ++ [34]).length + 1) raw []
      (scanString_plainText raw [] hp)
    rw [List.append_nil] at this
    exact this
  have hdoc : parseDocument ([34] ++ raw ++ [34]) = some (JValue.string raw) := by
    unfold parseDocument
    rw [hscan]
    rfl
  unfold marshalTime
  rw [hm]
  simp only [hdoc, compactJ, escapeHTMLBytes, escapeHTMLAux_plainText raw.length raw hp (le_refl _)]

/-- Storing a member named `attributes`. -/
theorem setAccountField_attributes (env : Env) (v : JValue) (a : Account) (sv : Saved) :
    setAccountField env (keyOf (ascii "attributes")) v a sv
      = Except.ok ({ a with Attributes := (decodeAttributes v a.Attributes sv).1 },
          (decodeAttributes v a.Attributes sv).2) := rfl

/-- Storing a member named `created_on` that is a string. -/
theorem setAccountField_created_on (env : Env) (raw : Bytes) (a : Account) (sv : Saved)
    (t : Time) (h : env.timeUnmarshalJSON ([34] ++ raw ++ [34]) = Except.ok t) :
    setAccountField env (keyOf (ascii "created_on")) (JValue.string raw) a sv
      = Except.ok ({ a with CreatedOn := t }, sv) := by
  have e : setAccountField env (keyOf (ascii "created_on")) (JValue.string raw) a sv
      = match env.timeUnmarshalJSON ([34] ++ raw ++ [34]) with
        | Except.error e => Except.error e
        | Except.ok t => Except.ok ({ a with CreatedOn := t }, sv) := rfl
  rw [e, h]

/-- Storing a member named `id`. -/
theorem setAccountField_id (env : Env) (v : JValue) (a : Account) (sv : Saved) :
    setAccountField env (keyOf (ascii "id")) v a sv
      = Except.ok ({ a with ID := (decodeString v a.ID sv).1 }, (decodeString v a.ID sv).2) := rfl

/-- Storing a member named `modified_on` that is a string. -/
theorem setAccountField_modified_on (env : Env) (raw : Bytes) (a : Account) (sv : Saved)
    (t : Time) (h : env.timeUnmarshalJSON ([34] ++ raw ++ [34]) = Except.ok t) :
    setAccountField env (keyOf (ascii "modified_on")) (JValue.string raw) a sv
      = Except.ok ({ a with ModifiedOn := t }, sv) := by
  have e : setAccountField env (keyOf (ascii "modified_on")) (JValue.string raw) a sv
      = match env.timeUnmarshalJSON ([34] ++ raw ++ [34]) with
        | Except.error e => Except.error e
        | Except.ok t => Except.ok ({ a with ModifiedOn := t }, sv) := rfl
  rw [e, h]

/-- Storing a member named `organisation_id`. -/
theorem setAccountField_organisation_id (env : Env) (v : JValue) (a : Account) (sv : Saved) :
    setAccountField env (keyOf (ascii "organisation_id")) v a sv
      = Except.ok ({ a with OrganisationID := (decodeString v a.OrganisationID sv).1 },
          (decodeString v a.OrganisationID sv).2) := rfl

/-- Storing a member named `type`. -/
theorem setAccountField_type (env : Env) (v : JValue) (a : Account) (sv : Saved) :
    setAccountField env (keyOf (ascii "type")) v a sv
      = Except.ok ({ a with Type_ := (decodeString v a.Type_ sv).1 },
          (decodeString v a.Type_ sv).2) := rfl

/-- Storing a member named `version`. -/
theorem setAccountField_version (env : Env) (v : JValue) (a : Account) (sv : Saved) :
    setAccountField env (keyOf (ascii "version")) v a sv
      = Except.ok ({ a with Version := (decodeInt v a.Version sv).1 },
          (decodeInt v a.Version sv).2) := rfl

/-- The parts of `Account.validStrings`. -/
theorem account_validStrings_parts (a : Account) (h : a.validStrings = true) :
    a.Attributes.validStrings = true ∧ ValidString a.ID = true
    ∧ ValidString a.OrganisationID = true ∧ ValidString a.Type_ = true := by
  simp only [Account.validStrings, Bool.and_eq_true] at h
  tauto

/-- Decoding what the scanner delimits in the text written for an account
gives the account back, when its strings are valid, its version fits 64 bits and
`UnmarshalJSON` restores its two times from their texts. -/
theorem decodeAccount_written (env : Env) (a old : Account) (sv : Saved) (rawC rawM : Bytes)
    (hv : a.validStrings = true)
    (h1 : -(2 : Int) ^ 63 ≤ a.Version) (h2 : a.Version < (2 : Int) ^ 63)
    (hC : env.timeUnmarshalJSON ([34] ++ rawC ++ [34]) = Except.ok a.CreatedOn)
    (hM : env.timeUnmarshalJSON ([34] ++ rawM ++ [34]) = Except.ok a.ModifiedOn) :
    decodeAccount env
      (JValue.object (memberValues (accountFields a ([34] ++ rawC ++ [34]) ([34] ++ rawM ++ [34]))
        (accountValues a rawC rawM))) old sv = Except.ok (a, sv) := by
  obtain ⟨ha, hid, horg, htype⟩ := account_validStrings_parts a hv
  show decodeAccountMembers env (memberValues
    (accountFields a ([34] ++ rawC ++ [34]) ([34] ++ rawM ++ [34])) (accountValues a rawC rawM))
    old sv = _
  have e : memberValues (accountFields a ([34] ++ rawC ++ [34]) ([34] ++ rawM ++ [34]))
      (accountValues a rawC rawM) =
      [(ascii "attributes", attributesValue a.Attributes),
       (ascii "created_on", JValue.string rawC), (ascii "id", stringValue a.ID),
       (ascii "modified_on", JValue.string rawM),
       (ascii "organisation_id", stringValue a.OrganisationID),
       (ascii "type", stringValue a.Type_),
       (ascii "version", JValue.number (formatInt a.Version))] := rfl
  rw [e]
  simp only [decodeAccountMembers, setAccountField_attributes, setAccountField_id,
    setAccountField_organisation_id, setAccountField_type, setAccountField_version,
    setAccountField_created_on env rawC _ _ _ hC, setAccountField_modified_on env rawM _ _ _ hM,
    decodeAttributes_written _ _ _ ha, decodeString_encoded _ _ _ hid,
    decodeString_encoded _ _ _ horg, decodeString_encoded _ _ _ htype,
    decodeInt_formatInt _ _ _ h1 h2]

/-- A written field, with its name, is no longer than the fields it is written among. -/
theorem writeFields_length_mem (fields : List (Bytes × Bytes)) (k v : Bytes)
    (h : (k, v) ∈ fields) : k.length + v.length ≤ (writeFields fields).length := by
  induction fields with
  | nil => cases h
  | cons x t ih =>
    obtain ⟨k1, v1⟩ := x
    cases t with
    | nil =>
      simp only [List.mem_singleton, Prod.mk.injEq] at h
      obtain ⟨rfl, rfl⟩ := h
      simp only [writeFields, List.length_append, List.length_cons, List.length_nil]
      omega
    | cons y u =>
      rcases List.mem_cons.mp h with h | h
      · simp only [Prod.mk.injEq] at h
        obtain ⟨rfl, rfl⟩ := h
        simp only [writeFields, List.length_append, List.length_cons, List.length_nil]
        omega
      · have := ih h
        simp only [writeFields, List.length_append, List.length_cons, List.length_nil] at this ⊢
        omega

/-- A written field, with its name, is shorter than the object it is written in. -/
theorem writeObject_length_mem (fields : List (Bytes × Bytes)) (k v : Bytes)
    (h : (k, v) ∈ fields) : k.length + v.length + 2 ≤ (writeObject fields).length := by
  have := writeFields_length_mem fields k v h
  simp only [writeObject, List.length_append, List.length_cons, List.length_nil]
  omega

/-- The text written for a string slice has two bytes or more for each element. -/
theorem marshalStringSlice_length (o : Option (List Bytes)) :
    2 * (o.getD []).length ≤ (marshalStringSlice o).length := by
  cases o with
  | none => simp
  | some l =>
    have h : ∀ l : List Bytes, 2 * l.length ≤ (marshalStrings l).length + 1 := by
      intro l
      induction l with
      | nil => simp
      | cons x t ih =>
        cases t with
        | nil => simp [marshalStrings, encodeString]
        | cons y u =>
          simp only [marshalStrings, List.length_append, List.length_cons, encodeString,
            List.length_singleton, List.length_nil] at ih ⊢
          omega
    have := h l
    simp [marshalStringSlice]
    omega

/-- The text written for an account is scanned as its values. -/
theorem ParsesTo_accountText (a : Account) (rawC rawM : Bytes) (hv : a.validStrings = true)
    (hpC : plainText rawC = true) (hpM : plainText rawM = true) :
    ParsesTo (writeObject (accountFields a ([34] ++ rawC ++ [34]) ([34] ++ rawM ++ [34])))
      (JValue.object (memberValues
        (accountFields a ([34] ++ rawC ++ [34]) ([34] ++ rawM ++ [34]))
        (accountValues a rawC rawM)))
      ((a.Attributes.AlternativeBankAccountNames.getD []).length + 26) := by
  obtain ⟨ha, hid, horg, htype⟩ := account_validStrings_parts a hv
  have hall : List.Forall₂ (fun fld v => plainText fld.1 = true ∧ ParsesTo fld.2 v
      ((a.Attributes.AlternativeBankAccountNames.getD []).length + 18))
      (accountFields a ([34] ++ rawC ++ [34]) ([34] ++ rawM ++ [34]))
      (accountValues a rawC rawM) := by
    unfold accountFields accountValues
    refine List.Forall₂.cons ⟨rfl, ParsesTo_marshalAttributes _ ha⟩
      (List.Forall₂.cons ⟨rfl, ParsesTo_mono _ _ 1 _ (ParsesTo_plainText rawC hpC) (by omega)⟩
      (List.Forall₂.cons ⟨rfl, ParsesTo_mono _ _ 1 _ (ParsesTo_encodeString _ hid) (by omega)⟩
      (List.Forall₂.cons ⟨rfl, ParsesTo_mono _ _ 1 _ (ParsesTo_plainText rawM hpM) (by omega)⟩
      (List.Forall₂.cons ⟨rfl, ParsesTo_mono _ _ 1 _ (ParsesTo_encodeString _ horg) (by omega)⟩
      (List.Forall₂.cons ⟨rfl, ParsesTo_mono _ _ 1 _ (ParsesTo_encodeString _ htype) (by omega)⟩
      (List.Forall₂.cons ⟨rfl, ParsesTo_mono _ _ 1 _ (ParsesTo_formatInt _) (by omega)⟩
      List.Forall₂.nil))))))
  have := ParsesTo_writeObject _ _ _ hall (by unfold accountFields; simp)
  have hlen : (accountFields a ([34] ++ rawC ++ [34]) ([34] ++ rawM ++ [34])).length = 7 := rfl
  rw [hlen] at this
  exact this

/-- Storing a member named `data`. -/
theorem setBodyField_data (env : Env) (v : JValue) (c : BodyCell) (sv : Saved) :
    setBodyField env (keyOf (ascii "data")) v c sv
      = match decodeAccountPtr env v c.body.Account2 sv with
        | Except.error e => Except.error e
        | Except.ok (none, sv1) => Except.ok (⟨⟨none⟩, c.account, false⟩, sv1)
        | Except.ok (some a, sv1) =>
          Except.ok (⟨⟨some a⟩, if c.linked then a else c.account, c.linked⟩, sv1) := rfl

/-- The decoder `Fetch` uses gives the account back from the body `Create`
sends for it. -/
theorem Decode_written (env : Env) (a : Account) (rawC rawM : Bytes)
    (hv : a.validStrings = true)
    (h1 : -(2 : Int) ^ 63 ≤ a.Version) (h2 : a.Version < (2 : Int) ^ 63)
    (hpC : plainText rawC = true) (hpM : plainText rawM = true)
    (hC : env.timeUnmarshalJSON ([34] ++ rawC ++ [34]) = Except.ok a.CreatedOn)
    (hM : env.timeUnmarshalJSON ([34] ++ rawM ++ [34]) = Except.ok a.ModifiedOn) :
    Decode env unmarshalBodyPtr
      (writeObject [(ascii "data",
        writeObject (accountFields a ([34] ++ rawC ++ [34]) ([34] ++ rawM ++ [34])))]) none
      = (some ⟨some a⟩, none) := by
  have hacc := ParsesTo_accountText a rawC rawM hv hpC hpM
  have hall : List.Forall₂ (fun fld v => plainText fld.1 = true ∧ ParsesTo fld.2 v
      ((a.Attributes.AlternativeBankAccountNames.getD []).length + 26))
      [(ascii "data",
        writeObject (accountFields a ([34] ++ rawC ++ [34]) ([34] ++ rawM ++ [34])))]
      [JValue.object (memberValues
        (accountFields a ([34] ++ rawC ++ [34]) ([34] ++ rawM ++ [34]))
        (accountValues a rawC rawM))] :=
    List.Forall₂.cons ⟨rfl, hacc⟩ List.Forall₂.nil
  have hlen : (a.Attributes.AlternativeBankAccountNames.getD []).length + 26 + 1 + 1
      ≤ 2 * (writeObject [(ascii "data",
        writeObject (accountFields a ([34] ++ rawC ++ [34]) ([34] ++ rawM ++ [34])))]).length
        + 2 := by
    have l1 := marshalStringSlice_length a.Attributes.AlternativeBankAccountNames
    have l2 := writeObject_length_mem (attributeFields a.Attributes)
      (ascii "alternative_bank_account_names")
      (marshalStringSlice a.Attributes.AlternativeBankAccountNames)
      (by unfold attributeFields; simp)
    have l3 := writeObject_length_mem
      (accountFields a ([34] ++ rawC ++ [34]) ([34] ++ rawM ++ [34]))
      (ascii "attributes") (marshalAttributes a.Attributes) (by unfold accountFields; simp)
    have l4 := writeObject_length_mem [(ascii "data",
        writeObject (accountFields a ([34] ++ rawC ++ [34]) ([34] ++ rawM ++ [34])))]
      (ascii "data")
      (writeObject (accountFields a ([34] ++ rawC ++ [34]) ([34] ++ rawM ++ [34])))
      (by simp)
    have l5 : (ascii "alternative_bank_account_names").length = 30 := rfl
    unfold marshalAttributes at l3
    omega
  have hparse := parseValue_writeObject _ _ _ hall (by simp) _ hlen []
  rw [List.append_nil] at hparse
  unfold Decode
  have hsp : (skipSpace (writeObject [(ascii "data",
        writeObject (accountFields a ([34] ++ rawC ++ [34]) ([34] ++ rawM ++ [34])))])).isEmpty
      = false := rfl
  rw [if_neg (by rw [hsp]; simp)]
  unfold scanValue
  rw [hparse]
  show unmarshalBodyPtr env (JValue.object [(ascii "data", JValue.object (memberValues
        (accountFields a ([34] ++ rawC ++ [34]) ([34] ++ rawM ++ [34]))
        (accountValues a rawC rawM)))]) none = _
  simp only [unmarshalBodyPtr, decodeAccountBody, decodeBodyMembers, setBodyField_data,
    decodeAccountPtr, Option.getD, decodeAccount_written env a _ _ rawC rawM hv h1 h2 hC hM]

/-- What `json.Marshal` writes for the envelope of an account whose times are
written as quoted plain texts. -/
theorem marshalAccountBody_written (env : Env) (a : Account) (rawC rawM : Bytes)
    (hpC : plainText rawC = true) (hpM : plainText rawM = true)
    (hmC : env.timeMarshalJSON a.CreatedOn = Except.ok ([34] ++ rawC ++ [34]))
    (hmM : env.timeMarshalJSON a.ModifiedOn = Except.ok ([34] ++ rawM ++ [34])) :
    marshalAccountBody env ⟨some a⟩ = Except.ok (writeObject [(ascii "data",
      writeObject (accountFields a ([34] ++ rawC ++ [34]) ([34] ++ rawM ++ [34])))]) := by
  simp only [marshalAccountBody, marshalAccount, marshalTime_plain env _ rawC hpC hmC,
    marshalTime_plain env _ rawM hpM hmM]

/-- C3, amended. For every account whose strings are well-formed UTF-8, whose
version fits the 64 bits of a Go `int`, and whose two times are written by
`MarshalJSON` as quoted plain texts from which `UnmarshalJSON` restores them:
the body Create sends serialises, the decoder Fetch uses reads that body back
as an account equal to it in every field, and so Fetch, answered with a 2xx
status and that body, returns that account and no error. -/
theorem C3_round_trip_valid_utf8 (env : Env) (a : Account)
    (hv : a.validStrings = true)
    (h1 : -(2 : Int) ^ 63 ≤ a.Version) (h2 : a.Version < (2 : Int) ^ 63)
    (hC : timeRestored env a.CreatedOn) (hM : timeRestored env a.ModifiedOn) :
    ∃ body, marshalAccountBody env ⟨some a⟩ = Except.ok body
      ∧ Decode env unmarshalBodyPtr body none = (some ⟨some a⟩, none)
      ∧ ∀ (c : Client) (req : Request) (resp : Response),
        newRequest env (ascii "GET") (c.baseURL ++ ascii "/v1/organisation/accounts/" ++ a.ID)
          none = Except.ok req →
        env.transport req = Except.ok resp →
        200 ≤ resp.StatusCode ∧ resp.StatusCode < 300 →
        resp.Body = body →
        Fetch env c a.ID = ⟨Outcome.returned (some a) none, [req]⟩ := by
  obtain ⟨rawC, hpC, hmC, huC⟩ := hC
  obtain ⟨rawM, hpM, hmM, huM⟩ := hM
  have hdec := Decode_written env a rawC rawM hv h1 h2 hpC hpM huC huM
  refine ⟨_, marshalAccountBody_written env a rawC rawM hpC hpM hmC hmM, hdec, ?_⟩
  intro c req resp hreq ht hs hb
  have h2xx := doRequest_2xx env unmarshalBodyPtr req none resp ht hs
  rw [hb, hdec] at h2xx
  have herr : (doRequest env unmarshalBodyPtr req none).err = none := h2xx.1
  rw [Fetch_of_ok env c a.ID req hreq herr, h2xx.2]


/-- C3, refuted as stated: the account whose first name is the single byte
`0xff` serialises (the body is `badBody`, with the first name written as the
escape of U+FFFD), and Fetch, answered with status 200 and that body, returns
an account whose first name is the three bytes of U+FFFD, not the account
that was sent. -/
theorem C3_counterexample :
    marshalAccountBody (sampleEnv ⟨200, badBody⟩) ⟨some badAccount⟩ = Except.ok badBody
    ∧ (Fetch (sampleEnv ⟨200, badBody⟩) sampleClient badAccount.ID).outcome
      = Outcome.returned (some { badAccount with
          Attributes := { Attributes.zero with FirstName := [0xEF, 0xBF, 0xBD] } }) none
    ∧ (Fetch (sampleEnv ⟨200, badBody⟩) sampleClient badAccount.ID).outcome
      ≠ Outcome.returned (some badAccount) none :=
  ⟨rfl, by decide, by decide⟩

/-- The account of the worked example for C3 meets the hypotheses, its body
is `goodBody`, and Fetch answered with status 200 and that body returns it. -/
theorem C3_round_trip_valid_utf8_witness :
    (goodAccount.validStrings = true
      ∧ timeRestored (sampleEnv ⟨200, goodBody⟩) goodAccount.CreatedOn)
    ∧ marshalAccountBody (sampleEnv ⟨200, goodBody⟩) ⟨some goodAccount⟩ = Except.ok goodBody
    ∧ Fetch (sampleEnv ⟨200, goodBody⟩) sampleClient goodAccount.ID
      = ⟨Outcome.returned (some goodAccount) none,
        [⟨ascii "GET", ascii
          "http://localhost:8080/v1/organisation/accounts/ad27e265-9605-4b4b-a0e5-3003ea9cc4dc",
          []⟩]⟩ := by
  have ht : timeRestored (sampleEnv ⟨200, goodBody⟩) Time.zero :=
    ⟨ascii "0001-01-01T00:00:00Z", by decide, rfl, rfl⟩
  have hm : marshalAccountBody (sampleEnv ⟨200, goodBody⟩) ⟨some goodAccount⟩
      = Except.ok goodBody := rfl
  obtain ⟨body, hb, _, hF⟩ := C3_round_trip_valid_utf8 (sampleEnv ⟨200, goodBody⟩) goodAccount
    (by decide) (by decide) (by decide) ht ht
  have hbody : goodBody = body := by
    rw [hm] at hb
    injection hb
  exact ⟨⟨by decide, ht⟩, hm, hF sampleClient _ ⟨200, goodBody⟩ rfl rfl (by decide) hbody⟩

end accountapi
